import Mathlib

/-!
# go-gun: the per-peer connection supervisor (`gun/gun_peer.go`)

A shallow embedding of `gunPeer` and its operations.  The supervisor is a
mutable Go struct reached through a pointer, so every operation is a function
from the struct value and the surrounding world to a result, the new struct
value and the new world.  The world holds

* `trace`: the chronological log of everything the supervisor does to its
  collaborators (mutex operations, factory calls, calls on a connection,
  timers handed to `time.AfterFunc`), each with the result it got back;
* `heap`: the store of `Message` objects, so that a `*Message` is an address
  and "the caller's message is unmodified" is a statement about the store.

External collaborators (the factory, the connection methods) are oracles that
may answer differently depending on the whole world so far.  A call that can
panic ends in an `Outcome`: returned or panicked, with the supervisor and the
world it leaves behind in both cases.
-/

namespace gun

/-- Go `error`; the nil error is `none` of `Option Error`. -/
abbrev Error := String

/-- Go `time.Duration` (a signed count of nanoseconds). -/
abbrev Duration := Int

/-- Go `context.Context`, an opaque handle passed through to the connection. -/
abbrev Context := Nat

/-- Go `*Message`: an address in the message store.  An address outside the
store plays the role of the nil pointer. -/
abbrev MsgPtr := Nat

/-- The dynamic type of an interface value, as far as `==` sees it: a
comparable type (a pointer type, say) or an uncomparable one (a struct holding
a slice, map or func, say). -/
inductive DynType where
  | comparable (id : Nat)
  | uncomparable (id : Nat)
deriving DecidableEq, Repr

/-- Is the type comparable? -/
def DynType.isComparable : DynType → Bool
  | .comparable _ => true
  | .uncomparable _ => false

/-- A non-nil value of the Go interface `Peer`: its dynamic type and the
identity of the value.  The nil interface value is `none` of `Option Peer`. -/
structure Peer where
  dynType : DynType
  handle : Nat
deriving DecidableEq, Repr

/-- A connection of a pointer type, the usual case: comparable by identity. -/
def Peer.ptr (n : Nat) : Peer := { dynType := .comparable 0, handle := n }

/-- Go `p == q` on two `Peer` interface values.  Values of different dynamic
types are unequal, values of one comparable type are compared, and comparing
two values of one uncomparable type is a run-time panic, here `none`.  The nil
interface value equals only itself. -/
def Peer.eq? : Option Peer → Option Peer → Option Bool
  | none, none => some true
  | none, some _ => some false
  | some _, none => some false
  | some a, some b =>
    if a.dynType ≠ b.dynType then some false
    else if a.dynType.isComparable then some (decide (a.handle = b.handle))
    else none

/-- Modelled from the spec: the `Message` struct is declared outside
`gun_peer.go`; it is an opaque payload plus a mutable destination field `To`. -/
structure Message where
  To : String
  payload : List Nat
deriving DecidableEq, Repr

/-- What the supervisor does to its collaborators, with what came back. -/
inductive Event where
  | lock
  | unlock
  | connPeer (conn : Option Peer) (err : Option Error)
  | peerSend (p : Peer) (ctx : Context) (msgs : List MsgPtr)
      (vals : List (Option Message)) (err : Option Error)
  | peerReceive (p : Peer) (ctx : Context) (msgs : Option (List MsgPtr))
      (err : Option Error)
  | peerClose (p : Peer) (err : Option Error)
  | afterFunc (d : Duration)
deriving DecidableEq, Repr

/-- Everything around the supervisor: the event log and the message store. -/
structure World where
  trace : List Event
  heap : List Message
deriving DecidableEq, Repr

/-- Append one event to the log. -/
def World.emit (w : World) (e : Event) : World :=
  { w with trace := w.trace ++ [e] }

/-- Go `func() (Peer, error)`: both components are returned independently, and
the answer may depend on everything that happened before the call. -/
abbrev Factory := World → Option Peer × Option Error

/-- What a connection's `Receive` hands back: the messages it allocated, the
slice it returns (`none` is the nil slice) and the error. -/
structure ReceiveResult where
  alloc : List Message
  msgs : Option (List MsgPtr)
  err : Option Error

/-- Modelled from the spec: the `Peer` interface is declared outside
`gun_peer.go`; a connection offers `send(scope, message, …messages) → error`,
`receive(scope) → (messages, error)` and `close() → error`.  Each method is an
oracle over the world at the moment of the call. -/
structure Env where
  peerSend : World → Peer → Context → List MsgPtr → Option Error
  peerReceive : World → Peer → Context → ReceiveResult
  peerClose : World → Peer → Option Error

/-- The Go struct `gunPeer`.  `peerLock` carries no data; its operations are
the `lock` and `unlock` events of the log. -/
structure gunPeer where
  url : String
  connPeer : Factory
  sleepOnErr : Duration
  id : String
  peer : Option Peer
  peerBad : Bool

/-- How a call that may panic ends: it returns a value, or it panics; either
way it leaves a supervisor and a world behind (deferred unlocks have run). -/
inductive Outcome (α : Type) where
  | returned (a : α) (g : gunPeer) (w : World)
  | panicked (g : gunPeer) (w : World)

/-- The world a call leaves behind. -/
def Outcome.world {α : Type} : Outcome α → World
  | .returned _ _ w => w
  | .panicked _ w => w

/-- Where execution goes on after a call: nowhere after a panic. -/
def Outcome.next {α : Type} : Outcome α → Option (gunPeer × World)
  | .returned _ g w => some (g, w)
  | .panicked _ _ => none

/-- Go `newGunPeer`: `p.peer, err = connPeer()`, then nil and the error when
the error is non-nil, else the new struct. -/
def newGunPeer (url : String) (connPeer : Factory) (sleepOnErr : Duration) (w : World) :
    (Option gunPeer × Option Error) × World :=
  let r := connPeer w
  let w := w.emit (.connPeer r.1 r.2)
  let p : gunPeer :=
    { url := url, connPeer := connPeer, sleepOnErr := sleepOnErr, id := "",
      peer := r.1, peerBad := false }
  match r.2 with
  | some err => ((none, some err), w)
  | none => ((some p, none), w)

/-- Go `(*gunPeer).ID`. -/
def gunPeer.ID (g : gunPeer) : String := g.id

/-- Go `(*gunPeer).reconnectPeer`. -/
def reconnectPeer (g : gunPeer) (w : World) : Option Error × gunPeer × World :=
  let w := w.emit .lock
  if g.peer.isNone && g.peerBad then
    let g := { g with peerBad := false }
    let r := g.connPeer w
    let w := w.emit (.connPeer r.1 r.2)
    let g := { g with peer := r.1 }
    match r.2 with
    | some err =>
      let g := { g with peerBad := true }
      let w := w.emit (.afterFunc g.sleepOnErr)
      (some err, g, w.emit .unlock)
    | none => (none, g, w.emit .unlock)
  else
    (none, g, w.emit .unlock)

/-- Go `(*gunPeer).connectedPeer`. -/
def connectedPeer (g : gunPeer) (w : World) : Option Peer × World :=
  let w := w.emit .lock
  (g.peer, w.emit .unlock)

/-- Go `(*gunPeer).markPeerErrored`.  It panics when the comparison
`p == g.peer` panics, and when it calls `p.Close()` on the nil interface
value; the deferred unlock runs in both cases. -/
def markPeerErrored (env : Env) (g : gunPeer) (w : World) (p : Option Peer) : Outcome Unit :=
  let w := w.emit .lock
  match Peer.eq? p g.peer with
  | none => .panicked g (w.emit .unlock)
  | some true =>
    let g := { g with peer := none, peerBad := true }
    match p with
    | none => .panicked g (w.emit .unlock)
    | some c =>
      let w := w.emit (.peerClose c (env.peerClose w c))
      let w := w.emit (.afterFunc g.sleepOnErr)
      .returned () g (w.emit .unlock)
  | some false => .returned () g (w.emit .unlock)

/-- Modelled from the spec: `Message.Clone` is declared outside `gun_peer.go`;
it returns an independent copy, here a new object at a fresh address holding
the same contents.  The result `none` is the panic of a nil dereference. -/
def Clone (w : World) (m : MsgPtr) : Option (MsgPtr × World) :=
  match w.heap[m]? with
  | none => none
  | some v => some (w.heap.length, { w with heap := w.heap ++ [v] })

/-- The Go assignment `m.To = dest` through the pointer `m`. -/
def setTo (w : World) (m : MsgPtr) (dest : String) : Option World :=
  match w.heap[m]? with
  | none => none
  | some v => some { w with heap := w.heap.set m { v with To := dest } }

/-- The loop of `send` over `moreMsgs`: clone, retag, collect.  The first
component is `none` when a message is nil and the loop panics. -/
def cloneMore (url : String) (w : World) : List MsgPtr → Option (List MsgPtr) × World
  | [] => (some [], w)
  | moreMsg :: rest =>
    match Clone w moreMsg with
    | none => (none, w)
    | some (moreMsg, w) =>
      match setTo w moreMsg url with
      | none => (none, w)
      | some w =>
        match cloneMore url w rest with
        | (none, w) => (none, w)
        | (some updated, w) => (some (moreMsg :: updated), w)

/-- Go `(*gunPeer).send`.  It panics on a nil message and when
`markPeerErrored` panics. -/
def send (env : Env) (g : gunPeer) (w : World) (ctx : Context) (msg : MsgPtr)
    (moreMsgs : List MsgPtr) : Outcome (Bool × Option Error) :=
  let (p, w) := connectedPeer g w
  match p with
  | none => .returned (false, none) g w
  | some p =>
    match Clone w msg with
    | none => .panicked g w
    | some (updatedMsg, w) =>
      match setTo w updatedMsg g.url with
      | none => .panicked g w
      | some w =>
        match cloneMore g.url w moreMsgs with
        | (none, w) => .panicked g w
        | (some updatedMoreMsgs, w) =>
          let sent := updatedMsg :: updatedMoreMsgs
          let err := env.peerSend w p ctx sent
          let w := w.emit (.peerSend p ctx sent (sent.map fun a => w.heap[a]?) err)
          match err with
          | some err =>
            match markPeerErrored env g w (some p) with
            | .panicked g w => .panicked g w
            | .returned _ g w => .returned (false, some err) g w
          | none => .returned (true, none) g w

/-- Go `(*gunPeer).receive`.  It panics when `markPeerErrored` panics. -/
def receive (env : Env) (g : gunPeer) (w : World) (ctx : Context) :
    Outcome (Bool × Option (List MsgPtr) × Option Error) :=
  let (p, w) := connectedPeer g w
  match p with
  | none => .returned (false, none, none) g w
  | some p =>
    let r := env.peerReceive w p ctx
    let w := { w with heap := w.heap ++ r.alloc }
    let w := w.emit (.peerReceive p ctx r.msgs r.err)
    match r.err with
    | some err =>
      match markPeerErrored env g w (some p) with
      | .panicked g w => .panicked g w
      | .returned _ g w => .returned (false, none, some err) g w
    | none => .returned (true, r.msgs, none) g w

/-- Go `(*gunPeer).Close`. -/
def Close (env : Env) (g : gunPeer) (w : World) : Option Error × gunPeer × World :=
  let w := w.emit .lock
  match g.peer with
  | some c =>
    let err := env.peerClose w c
    let w := w.emit (.peerClose c err)
    (err, { g with peer := none, peerBad := false }, w.emit .unlock)
  | none => (none, { g with peerBad := false }, w.emit .unlock)

/-- Go `(*gunPeer).closed`. -/
def closed (g : gunPeer) (w : World) : Bool × World :=
  let w := w.emit .lock
  (g.peer.isNone && !g.peerBad, w.emit .unlock)

/-! ## Reading the log -/

/-- Is the event a call of the factory? -/
def Event.isFactoryCall : Event → Bool
  | .connPeer _ _ => true
  | _ => false

/-- How often the factory was called. -/
def factoryCalls (t : List Event) : Nat := t.countP Event.isFactoryCall

/-- The delay of a timer handed to `time.AfterFunc`. -/
def Event.delay? : Event → Option Duration
  | .afterFunc d => some d
  | _ => none

/-- The delays of the reconnect attempts scheduled, in order. -/
def scheduled (t : List Event) : List Duration := t.filterMap Event.delay?

/-- The connection a `Close` call went to. -/
def Event.closedPeer? : Event → Option Peer
  | .peerClose p _ => some p
  | _ => none

/-- The connections whose `Close` was called, in order. -/
def closeCalls (t : List Event) : List Peer := t.filterMap Event.closedPeer?

/-- Is the event a call of a connection method (`Send`, `Receive`, `Close`)? -/
def Event.isPeerCall : Event → Bool
  | .peerSend _ _ _ _ _ => true
  | .peerReceive _ _ _ _ => true
  | .peerClose _ _ => true
  | _ => false

/-- The calls made on connections, in order. -/
def peerCalls (t : List Event) : List Event := t.filter Event.isPeerCall

/-- Is the event a call of a connection's `Send`? -/
def Event.isSend : Event → Bool
  | .peerSend _ _ _ _ _ => true
  | _ => false

/-- The calls of `Send` made on connections, in order. -/
def sendCalls (t : List Event) : List Event := t.filter Event.isSend

/-- The events `w1` has logged beyond those of the earlier world `w`. -/
def newEvents (w w1 : World) : List Event := w1.trace.drop w.trace.length

/-- A message as forwarded: the same contents with the destination replaced. -/
def Message.retag (url : String) (v : Message) : Message := { v with To := url }

/-! ## Sample collaborators -/

/-- An empty world. -/
def demoWorld : World := { trace := [], heap := [] }

/-- A world whose store holds two caller messages bound for other peers. -/
def demoStore : World :=
  { trace := [],
    heap := [{ To := "ws://other", payload := [1, 2] }, { To := "", payload := [3] }] }

/-- A factory that always connects; the connection is numbered by the call. -/
def demoFactory : Factory := fun w => (some (.ptr (factoryCalls w.trace)), none)

/-- A factory that never connects. -/
def deadFactory : Factory := fun _ => (none, some "dial: refused")

/-- A factory that connects on its first call and afterwards returns an error
together with a non-nil connection value. -/
def sloppyFactory : Factory := fun w =>
  if factoryCalls w.trace = 0 then (some (.ptr 0), none)
  else (some (.ptr (factoryCalls w.trace)), some "dial: refused")

/-- Connections on which every call fails. -/
def brokenEnv : Env :=
  { peerSend := fun _ _ _ _ => some "send: broken pipe"
    peerReceive := fun _ _ _ =>
      { alloc := [{ To := "", payload := [9] }], msgs := some [0], err := some "recv: reset" }
    peerClose := fun _ _ => some "close: already closed" }

/-- Connections on which every call succeeds; `Receive` delivers one message. -/
def healthyEnv : Env :=
  { peerSend := fun _ _ _ _ => none
    peerReceive := fun w _ _ =>
      { alloc := [{ To := "", payload := [9] }], msgs := some [w.heap.length], err := none }
    peerClose := fun _ _ => none }

/-- A live supervisor over the always-connecting factory. -/
def demoPeer : gunPeer :=
  { url := "ws://here", connPeer := demoFactory, sleepOnErr := 10, id := "",
    peer := some (.ptr 0), peerBad := false }

/-- A supervisor whose connection broke: slot empty, down flag set. -/
def downPeer : gunPeer := { demoPeer with peer := none, peerBad := true }

/-- A supervisor after `Close`: slot empty, down flag clear. -/
def idlePeer : gunPeer := { demoPeer with peer := none, peerBad := false }

/-! ## Worlds and events named in the statements -/

/-- The world in which a live supervisor calls the connection's `Send`: the
mutex was taken and released once and the retagged clones were appended. -/
def sendWorld (g : gunPeer) (w : World) (vals : List Message) : World :=
  { trace := w.trace ++ [.lock, .unlock], heap := w.heap ++ vals.map (Message.retag g.url) }

/-- The `Send` event of a live supervisor forwarding the messages `vals`. -/
def sendEvent (g : gunPeer) (w : World) (c : Peer) (ctx : Context) (vals : List Message)
    (err : Option Error) : Event :=
  .peerSend c ctx (List.range' w.heap.length vals.length)
    ((vals.map (Message.retag g.url)).map some) err

/-- The world in which a live supervisor calls the connection's `Receive`. -/
def receiveWorld (w : World) : World := (w.emit .lock).emit .unlock

/-- The world right after the connection's `Receive` answered `r`. -/
def receivedWorld (w : World) (c : Peer) (ctx : Context) (r : ReceiveResult) : World :=
  { trace := w.trace ++ [.lock, .unlock, .peerReceive c ctx r.msgs r.err],
    heap := w.heap ++ r.alloc }

/-! ## States and runs -/

/-- State Live: the connection slot is set. -/
def Live (g : gunPeer) : Prop := g.peer ≠ none

/-- State Down-Retrying: the slot is unset and the down flag is true. -/
def DownRetrying (g : gunPeer) : Prop := g.peer = none ∧ g.peerBad = true

/-- State Idle/Closed: the slot is unset and the down flag is false. -/
def Idle (g : gunPeer) : Prop := g.peer = none ∧ g.peerBad = false

/-- A factory that hands back no connection whenever it hands back an error. -/
def Factory.noPeerOnError (f : Factory) : Prop :=
  ∀ w, (f w).2 ≠ none → (f w).1 = none

/-- The operations that can be applied to a supervisor: the calls of its
methods, and the firing of a timer, which runs `reconnectPeer`. -/
inductive Op where
  | send (ctx : Context) (msg : MsgPtr) (moreMsgs : List MsgPtr)
  | receive (ctx : Context)
  | Close
  | closed
  | connectedPeer
  | markPeerErrored (p : Option Peer)
  | reconnectPeer
deriving DecidableEq, Repr

/-- Apply one operation, keeping the supervisor and the world it leaves;
`none` when the operation panics. -/
def step (env : Env) (g : gunPeer) (w : World) : Op → Option (gunPeer × World)
  | .send ctx msg moreMsgs => (send env g w ctx msg moreMsgs).next
  | .receive ctx => (receive env g w ctx).next
  | .Close => some (Close env g w).2
  | .closed => some (g, (closed g w).2)
  | .connectedPeer => some (g, (connectedPeer g w).2)
  | .markPeerErrored p => (markPeerErrored env g w p).next
  | .reconnectPeer => some (reconnectPeer g w).2

/-- Apply a sequence of operations one after the other. -/
def run (env : Env) : List Op → gunPeer → World → Option (gunPeer × World)
  | [], g, w => some (g, w)
  | op :: ops, g, w =>
    match step env g w op with
    | none => none
    | some (g, w) => run env ops g w

/-! ## Sample runs -/

/-- The world after the failed `send` of two messages on broken connections,
started in `w` by a supervisor with url `ws://here` and delay 10. -/
def afterFailedSend (w : World) : World :=
  { trace := w.trace ++ [.lock, .unlock,
      .peerSend (.ptr 0) 0 [2, 3]
        [some { To := "ws://here", payload := [1, 2] }, some { To := "ws://here", payload := [3] }]
        (some "send: broken pipe"),
      .lock, .peerClose (.ptr 0) (some "close: already closed"), .afterFunc 10, .unlock],
    heap := w.heap ++
      [{ To := "ws://here", payload := [1, 2] }, { To := "ws://here", payload := [3] }] }

/-- The supervisor that `newGunPeer` builds over the sloppy factory. -/
def sloppyPeer : gunPeer := { demoPeer with connPeer := sloppyFactory }

/-- The world right after that construction. -/
def sloppyWorld : World := demoStore.emit (.connPeer (some (.ptr 0)) none)

/-- The sloppy supervisor after a failed `send`. -/
def sloppyDown : gunPeer := { sloppyPeer with peer := none, peerBad := true }

/-- The world a live supervisor leaves when the connection's `Send` of the
messages `vals` failed with `e`: the failed call, then `markPeerErrored`. -/
def sendFailedWorld (env : Env) (g : gunPeer) (w : World) (c : Peer) (ctx : Context)
    (vals : List Message) (e : Error) : World :=
  { trace := w.trace ++ [.lock, .unlock, sendEvent g w c ctx vals (some e), .lock,
      .peerClose c (env.peerClose (((sendWorld g w vals).emit
        (sendEvent g w c ctx vals (some e))).emit .lock) c),
      .afterFunc g.sleepOnErr, .unlock],
    heap := w.heap ++ vals.map (Message.retag g.url) }

/-- A factory that connects whenever asked, except on its second call. -/
def retryFactory : Factory := fun w =>
  if factoryCalls w.trace = 1 then (none, some "dial: refused")
  else (some (.ptr (factoryCalls w.trace)), none)

/-- Is the event a call of a connection's `Send` or `Receive`? -/
def Event.isTransfer : Event → Bool
  | .peerSend _ _ _ _ _ => true
  | .peerReceive _ _ _ _ => true
  | _ => false

/-- Is the event a call of a connection's `Close`? -/
def Event.isClose : Event → Bool
  | .peerClose _ _ => true
  | _ => false

/-- Does every event selected by `io` occur while the mutex is in the state
`want` (true: held, false: not held)?  `held` is the state of the mutex before
the first event. -/
def callsWhen (io : Event → Bool) (want : Bool) : Bool → List Event → Bool
  | _, [] => true
  | held, e :: t =>
    match e with
    | .lock => callsWhen io want true t
    | .unlock => callsWhen io want false t
    | _ => (!io e || held == want) && callsWhen io want held t

/-- The connection a factory call handed back, if any. -/
def Event.conn? : Event → Option Peer
  | .connPeer c _ => c
  | _ => none

/-- The connections obtained from the factory, in order. -/
def obtained (t : List Event) : List Peer := t.filterMap Event.conn?

/-- The events an operation logs before it changes the supervisor: nothing, a
read of the slot, or a read of the slot followed by one `Send` or `Receive`. -/
def IsPrelude (pre : List Event) : Prop :=
  pre = [] ∨ pre = [.lock, .unlock] ∨ ∃ ev, ev.isTransfer = true ∧ pre = [.lock, .unlock, ev]

/-- The ways an operation other than `reconnectPeer` changes the supervisor
`g`, with the events it logs while doing so: nothing; `markPeerErrored` on the
installed connection; `Close` with a connection installed; `Close` without. -/
inductive Change (g : gunPeer) : gunPeer → List Event → Prop
  | same : Change g g []
  | errored (c : Peer) (cr : Option Error) : g.peer = some c →
      Change g { g with peer := none, peerBad := true }
        [.lock, .peerClose c cr, .afterFunc g.sleepOnErr, .unlock]
  | closedConn (c : Peer) (cr : Option Error) : g.peer = some c →
      Change g { g with peer := none, peerBad := false } [.lock, .peerClose c cr, .unlock]
  | closedEmpty : g.peer = none →
      Change g { g with peer := none, peerBad := false } [.lock, .unlock]

/-- Apply one operation while counting the pending reconnect timers: a
`reconnectPeer` is the firing of a pending timer, which it consumes (`none`
when no timer is pending), and every `time.AfterFunc` of the operation adds
one. -/
def stepTimers (env : Env) (g : gunPeer) (w : World) (pending : Nat) (op : Op) :
    Option (gunPeer × World × Nat) :=
  match op, pending with
  | .reconnectPeer, 0 => none
  | .reconnectPeer, n + 1 =>
    some ((reconnectPeer g w).2.1, (reconnectPeer g w).2.2,
      n + (scheduled (newEvents w (reconnectPeer g w).2.2)).length)
  | op, n =>
    (step env g w op).map fun s => (s.1, s.2, n + (scheduled (newEvents w s.2)).length)

/-- Apply a sequence of operations while counting the pending timers. -/
def runTimers (env : Env) : List Op → gunPeer → World → Nat → Option (gunPeer × World × Nat)
  | [], g, w, n => some (g, w, n)
  | op :: ops, g, w, n =>
    match stepTimers env g w n op with
    | none => none
    | some (g, w, n) => runTimers env ops g w n

/-- The operations of a sample run: the installed connection is marked
errored, the first timer fires and the factory refuses, the second timer
fires and the factory connects. -/
def retryOps : List Op := [.markPeerErrored (some (.ptr 0)), .reconnectPeer, .reconnectPeer]

/-- The supervisor at the end of the sample run over `retryFactory`. -/
def retryEnd : gunPeer :=
  { url := "ws://here", connPeer := retryFactory, sleepOnErr := 10, id := "",
    peer := some (.ptr 2), peerBad := false }

/-- The world at the end of the sample run, started in `demoStore` on broken
connections. -/
def retryEndWorld : World :=
  { trace := [.connPeer (some (.ptr 0)) none,
      .lock, .peerClose (.ptr 0) (some "close: already closed"), .afterFunc 10, .unlock,
      .lock, .connPeer none (some "dial: refused"), .afterFunc 10, .unlock,
      .lock, .connPeer (some (.ptr 2)) none, .unlock],
    heap := demoStore.heap }

/-- The world a live supervisor leaves when the connection's `Send` of the
messages `vals` failed with `e` and the comparison in `markPeerErrored` then
panicked: the failed call, then only the mutex taken and released. -/
def sendPanicWorld (g : gunPeer) (w : World) (c : Peer) (ctx : Context)
    (vals : List Message) (e : Error) : World :=
  { trace := w.trace ++ [.lock, .unlock, sendEvent g w c ctx vals (some e), .lock, .unlock],
    heap := w.heap ++ vals.map (Message.retag g.url) }

/-- The sloppy supervisor after a reconnect attempt that failed with a
connection value: connection in the slot, down flag set. -/
def sloppyStuck : gunPeer := { sloppyPeer with peer := some (.ptr 1), peerBad := true }

/-! ## Cloning and retagging -/

/-- Cloning a message and retagging the clone appends the retagged copy to
the store and leaves every earlier object alone. -/
theorem Clone_setTo (url : String) (w : World) (m : MsgPtr) (v : Message)
    (h : w.heap[m]? = some v) :
    ∃ w1, Clone w m = some (w.heap.length, w1) ∧
      setTo w1 w.heap.length url = some { w with heap := w.heap ++ [v.retag url] } := by
  refine ⟨{ w with heap := w.heap ++ [v] }, ?_, ?_⟩
  · simp [Clone, h]
  · simp [setTo, Message.retag]

/-- A valid address still reads the same object after the store has grown. -/
theorem getElem?_grow (l ys : List Message) (a : Nat) (v : Message) (h : l[a]? = some v) :
    (l ++ ys)[a]? = some v := by
  have hlt : a < l.length := by
    rcases Nat.lt_or_ge a l.length with hlt | hge
    · exact hlt
    · rw [List.getElem?_eq_none hge] at h
      cases h
  rw [List.getElem?_append_left hlt, h]

/-- The loop over valid messages: the clones sit at the next fresh addresses
in order, each the retagged copy of its original. -/
theorem cloneMore_eq (url : String) :
    ∀ (ms : List MsgPtr) (vals : List Message) (w : World),
      ms.map (fun a => w.heap[a]?) = vals.map some →
      cloneMore url w ms =
        (some (List.range' w.heap.length ms.length),
          { w with heap := w.heap ++ vals.map (Message.retag url) })
  | [], vals, w, h => by
    cases vals with
    | nil => simp [cloneMore]
    | cons v vs => simp at h
  | a :: rest, vals, w, h => by
    cases vals with
    | nil => simp at h
    | cons v vs =>
      simp only [List.map_cons, List.cons.injEq] at h
      obtain ⟨w1, h1, h2⟩ := Clone_setTo url w a v h.1
      have hrest : rest.map (fun b => ({ w with heap := w.heap ++ [v.retag url] } : World).heap[b]?)
          = vs.map some := by
        rw [← h.2]
        apply List.map_congr_left
        intro b hb
        have : ∃ x, w.heap[b]? = some x := by
          have hmem : w.heap[b]? ∈ rest.map (fun a => w.heap[a]?) := List.mem_map_of_mem _ hb
          rw [h.2] at hmem
          obtain ⟨x, _, hx⟩ := List.mem_map.1 hmem
          exact ⟨x, hx.symm⟩
        obtain ⟨x, hx⟩ := this
        simp only
        rw [getElem?_grow _ _ _ _ hx, hx]
      have ih := cloneMore_eq url rest vs _ hrest
      simp only [cloneMore, h1, h2, ih]
      simp [List.range'_succ]

/-- Reading the fresh addresses of a grown store gives the appended objects. -/
theorem map_getElem?_fresh (l cs : List Message) :
    (List.range' l.length cs.length).map (fun a => (l ++ cs)[a]?) = cs.map some := by
  induction cs generalizing l with
  | nil => simp
  | cons c cs ih =>
    have := ih (l ++ [c])
    simp only [List.length_append, List.length_singleton, List.append_assoc,
      List.singleton_append] at this
    have h0 : (l ++ c :: cs)[l.length]? = some c := by
      rw [List.getElem?_append_right (Nat.le_refl _)]
      simp
    simp only [List.length_cons, List.range'_succ, List.map_cons, h0, this]

/-- Comparing a connection with itself: true for a comparable type, a panic
for an uncomparable one. -/
theorem Peer.eq?_self (c : Peer) :
    Peer.eq? (some c) (some c) = if c.dynType.isComparable then some true else none := by
  simp [Peer.eq?]

/-- What `markPeerErrored` does for the installed connection when its type is
comparable. -/
theorem markPeerErrored_hit (env : Env) (g : gunPeer) (w : World) (c : Peer)
    (hc : g.peer = some c) (hcmp : c.dynType.isComparable = true) :
    markPeerErrored env g w (some c) =
      .returned () { g with peer := none, peerBad := true }
        { trace := w.trace ++ [.lock, .peerClose c (env.peerClose (w.emit .lock) c),
            .afterFunc g.sleepOnErr, .unlock],
          heap := w.heap } := by
  simp [markPeerErrored, hc, Peer.eq?_self, hcmp, World.emit]

/-- What `markPeerErrored` does for the installed connection when its type is
uncomparable: the comparison panics under the mutex and nothing else happens. -/
theorem markPeerErrored_self_panic (env : Env) (g : gunPeer) (w : World) (c : Peer)
    (hc : g.peer = some c) (hcmp : c.dynType.isComparable = false) :
    markPeerErrored env g w (some c) =
      .panicked g { trace := w.trace ++ [.lock, .unlock], heap := w.heap } := by
  simp [markPeerErrored, hc, Peer.eq?_self, hcmp, World.emit]

/-- What `markPeerErrored` does for a connection that compares unequal to the
slot. -/
theorem markPeerErrored_miss (env : Env) (g : gunPeer) (w : World) (p : Option Peer)
    (h : Peer.eq? p g.peer = some false) :
    markPeerErrored env g w p =
      .returned () g { trace := w.trace ++ [.lock, .unlock], heap := w.heap } := by
  simp [markPeerErrored, h, World.emit]

/-- What `send` does on a live supervisor with valid messages, in closed form. -/
theorem send_live (env : Env) (g : gunPeer) (w : World) (ctx : Context) (msg : MsgPtr)
    (moreMsgs : List MsgPtr) (c : Peer) (v : Message) (vals : List Message)
    (hc : g.peer = some c) (hv : w.heap[msg]? = some v)
    (hvs : moreMsgs.map (fun a => w.heap[a]?) = vals.map some) :
    send env g w ctx msg moreMsgs =
      match env.peerSend (sendWorld g w (v :: vals)) c ctx
          (List.range' w.heap.length (v :: vals).length) with
      | some e =>
        if c.dynType.isComparable then
          .returned (false, some e) { g with peer := none, peerBad := true }
            (sendFailedWorld env g w c ctx (v :: vals) e)
        else .panicked g (sendPanicWorld g w c ctx (v :: vals) e)
      | none =>
        .returned (true, none) g
          { trace := w.trace ++ [.lock, .unlock, sendEvent g w c ctx (v :: vals) none],
            heap := w.heap ++ (v :: vals).map (Message.retag g.url) } := by
  have hlen : moreMsgs.length = vals.length := by
    have := congrArg List.length hvs
    simpa using this
  obtain ⟨w1, h1, h2⟩ := Clone_setTo g.url ((w.emit .lock).emit .unlock) msg v hv
  have hvs2 : moreMsgs.map (fun a =>
      ({ (w.emit .lock).emit .unlock with
        heap := ((w.emit .lock).emit .unlock).heap ++ [v.retag g.url] } : World).heap[a]?)
      = vals.map some := by
    rw [← hvs]
    apply List.map_congr_left
    intro b hb
    have hmem : w.heap[b]? ∈ moreMsgs.map (fun a => w.heap[a]?) := List.mem_map_of_mem _ hb
    rw [hvs] at hmem
    obtain ⟨x, _, hx⟩ := List.mem_map.1 hmem
    have hx2 : w.heap[b]? = some x := hx.symm
    show (w.heap ++ [v.retag g.url])[b]? = w.heap[b]?
    rw [getElem?_grow _ _ _ _ hx2, hx2]
  have h3 := cloneMore_eq g.url moreMsgs vals _ hvs2
  have hfresh := map_getElem?_fresh w.heap ((v :: vals).map (Message.retag g.url))
  simp only [List.length_map] at hfresh
  simp only [send, connectedPeer, hc, h1, h2, h3]
  simp only [World.emit, sendWorld, sendEvent, sendFailedWorld, sendPanicWorld,
    List.append_assoc, List.singleton_append,
    List.cons_append, List.nil_append, List.map_cons, List.length_cons, hlen,
    List.range'_succ, List.length_append, List.length_singleton, List.length_nil,
    Nat.zero_add] at hfresh ⊢
  rw [hfresh]
  cases hres : env.peerSend
      { trace := w.trace ++ [Event.lock, Event.unlock],
        heap := w.heap ++ (v.retag g.url :: vals.map (Message.retag g.url)) } c ctx
      (w.heap.length :: List.range' (w.heap.length + 1) vals.length) with
  | none => simp
  | some e =>
    cases hcmp : c.dynType.isComparable with
    | true => simp [markPeerErrored, hc, Peer.eq?_self, hcmp, World.emit]
    | false => simp [markPeerErrored, hc, Peer.eq?_self, hcmp, World.emit]

/-- The new events of a world that extends the log of `w` by `xs`. -/
theorem newEvents_append (w : World) (xs : List Event) (h : List Message) :
    newEvents w { trace := w.trace ++ xs, heap := h } = xs := by
  simp [newEvents]

/-! ## Construction -/

/-- C1: when the factory's call returns a connection `c` and no error,
`newGunPeer` returns a supervisor and no error after exactly one factory call
and without scheduling anything; on that supervisor `connectedPeer` returns
`c`, the down flag is false and `closed` is false. -/
theorem newGunPeer_success (url : String) (connPeer : Factory) (sleepOnErr : Duration)
    (w : World) (c : Peer) (h : connPeer w = (some c, none)) :
    ∃ g w1, newGunPeer url connPeer sleepOnErr w = ((some g, none), w1) ∧
      w1 = w.emit (.connPeer (some c) none) ∧
      factoryCalls (newEvents w w1) = 1 ∧ scheduled (newEvents w w1) = [] ∧
      g.url = url ∧ g.sleepOnErr = sleepOnErr ∧ g.peerBad = false ∧ Live g ∧
      ∀ w2, (connectedPeer g w2).1 = some c ∧ (closed g w2).1 = false := by
  refine ⟨⟨url, connPeer, sleepOnErr, "", some c, false⟩, w.emit (.connPeer (some c) none),
    ?_, rfl, ?_, ?_, rfl, rfl, rfl, by simp [Live], ?_⟩
  · simp [newGunPeer, h]
  · simp [newEvents, World.emit, factoryCalls, Event.isFactoryCall]
  · simp [newEvents, World.emit, scheduled, Event.delay?]
  · intro w2
    simp [connectedPeer, closed, h]

/-- The theorem of C1 at the always-connecting factory. -/
theorem newGunPeer_success_witness :
    demoFactory demoWorld = (some (.ptr 0), none) ∧
    ∃ g w1, newGunPeer "ws://here" demoFactory 10 demoWorld = ((some g, none), w1) ∧
      w1 = demoWorld.emit (.connPeer (some (.ptr 0)) none) ∧
      factoryCalls (newEvents demoWorld w1) = 1 ∧ scheduled (newEvents demoWorld w1) = [] ∧
      g.url = "ws://here" ∧ g.sleepOnErr = 10 ∧ g.peerBad = false ∧ Live g ∧
      ∀ w2, (connectedPeer g w2).1 = some (.ptr 0) ∧ (closed g w2).1 = false :=
  ⟨rfl, newGunPeer_success "ws://here" demoFactory 10 demoWorld (.ptr 0) rfl⟩

/-- C2: when the factory's call returns an error `e` (with whatever
connection value), `newGunPeer` returns no supervisor and exactly `e`, after
exactly one factory call and without scheduling a reconnect attempt. -/
theorem newGunPeer_failure (url : String) (connPeer : Factory) (sleepOnErr : Duration)
    (w : World) (e : Error) (h : (connPeer w).2 = some e) :
    (newGunPeer url connPeer sleepOnErr w).1 = (none, some e) ∧
    (newGunPeer url connPeer sleepOnErr w).2 = w.emit (.connPeer (connPeer w).1 (some e)) ∧
    factoryCalls (newEvents w (newGunPeer url connPeer sleepOnErr w).2) = 1 ∧
    scheduled (newEvents w (newGunPeer url connPeer sleepOnErr w).2) = [] := by
  simp [newGunPeer, h, newEvents, World.emit, factoryCalls, Event.isFactoryCall, scheduled,
    Event.delay?]

/-- The theorem of C2 at the factory that never connects. -/
theorem newGunPeer_failure_witness :
    (deadFactory demoWorld).2 = some "dial: refused" ∧
    (newGunPeer "ws://here" deadFactory 10 demoWorld).1 = (none, some "dial: refused") ∧
    (newGunPeer "ws://here" deadFactory 10 demoWorld).2
      = demoWorld.emit (.connPeer (deadFactory demoWorld).1 (some "dial: refused")) ∧
    factoryCalls (newEvents demoWorld (newGunPeer "ws://here" deadFactory 10 demoWorld).2) = 1 ∧
    scheduled (newEvents demoWorld (newGunPeer "ws://here" deadFactory 10 demoWorld).2) = [] :=
  ⟨rfl, newGunPeer_failure "ws://here" deadFactory 10 demoWorld "dial: refused" rfl⟩

/-! ## Sending -/

/-- C3: a live supervisor with url `u` asked to send a primary message and
`N` further ones makes exactly one `Send` call on its connection, with `N+1`
messages in the caller's order, each the caller's message with `To` replaced
by `u`; the forwarded objects are fresh, and every object that was in the store
before the call, the caller's messages among them, is unchanged afterwards.
All this holds of the world `send` leaves behind whether it returns or
panics; it returns whenever `Send` answers no error or the connection's type
is comparable. -/
theorem send_retags_copies (env : Env) (g : gunPeer) (w : World) (ctx : Context)
    (msg : MsgPtr) (moreMsgs : List MsgPtr) (c : Peer) (v : Message) (vals : List Message)
    (hc : g.peer = some c) (hv : w.heap[msg]? = some v)
    (hvs : moreMsgs.map (fun a => w.heap[a]?) = vals.map some) :
    ∃ w1 ptrs sent err, (send env g w ctx msg moreMsgs).world = w1 ∧
      sendCalls (newEvents w w1) = [.peerSend c ctx ptrs (sent.map some) err] ∧
      ptrs.length = moreMsgs.length + 1 ∧
      sent = (v :: vals).map (Message.retag g.url) ∧
      sent.length = moreMsgs.length + 1 ∧
      (∀ m ∈ sent, m.To = g.url) ∧
      sent.map Message.payload = (v :: vals).map Message.payload ∧
      (∀ a ∈ ptrs, w.heap.length ≤ a) ∧
      w1.heap[msg]? = some v ∧
      moreMsgs.map (fun a => w1.heap[a]?) = vals.map some ∧
      (∀ (a : MsgPtr) (x : Message), w.heap[a]? = some x → w1.heap[a]? = some x) ∧
      ((err = none ∨ c.dynType.isComparable = true) →
        ∃ r g1, send env g w ctx msg moreMsgs = .returned r g1 w1) := by
  have hlen : moreMsgs.length = vals.length := by
    have := congrArg List.length hvs
    simpa using this
  have hkeep : ∀ a x, w.heap[a]? = some x →
      (w.heap ++ (v :: vals).map (Message.retag g.url))[a]? = some x :=
    fun a x hx => getElem?_grow _ _ _ _ hx
  have hmore : moreMsgs.map (fun a => (w.heap ++ (v :: vals).map (Message.retag g.url))[a]?)
      = vals.map some := by
    rw [← hvs]
    apply List.map_congr_left
    intro b hb
    have hmem : w.heap[b]? ∈ moreMsgs.map (fun a => w.heap[a]?) := List.mem_map_of_mem _ hb
    rw [hvs] at hmem
    obtain ⟨x, _, hx⟩ := List.mem_map.1 hmem
    have hx2 : w.heap[b]? = some x := hx.symm
    show (w.heap ++ (v :: vals).map (Message.retag g.url))[b]? = w.heap[b]?
    rw [hkeep b x hx2, hx2]
  have hsent : ∀ m ∈ (v :: vals).map (Message.retag g.url), m.To = g.url := by
    intro m hm
    obtain ⟨x, _, rfl⟩ := List.mem_map.1 hm
    rfl
  have hpay : ((v :: vals).map (Message.retag g.url)).map Message.payload
      = (v :: vals).map Message.payload := by
    rw [List.map_map]
    rfl
  have hfreshAddr : ∀ a ∈ List.range' w.heap.length (v :: vals).length, w.heap.length ≤ a := by
    intro a ha
    exact (List.mem_range'_1.1 ha).1
  have hsend := send_live env g w ctx msg moreMsgs c v vals hc hv hvs
  cases hres : env.peerSend (sendWorld g w (v :: vals)) c ctx
      (List.range' w.heap.length (v :: vals).length) with
  | none =>
    rw [hres] at hsend
    refine ⟨⟨w.trace ++ [.lock, .unlock, sendEvent g w c ctx (v :: vals) none],
        w.heap ++ (v :: vals).map (Message.retag g.url)⟩,
      List.range' w.heap.length (v :: vals).length,
      (v :: vals).map (Message.retag g.url), none, by simp only [hsend, Outcome.world], ?_, ?_,
      rfl, ?_, hsent, hpay, hfreshAddr, hkeep msg v hv, hmore, hkeep, fun _ => ⟨_, _, hsend⟩⟩
    · rw [newEvents_append]
      simp [sendCalls, sendEvent, Event.isSend]
    · simp [hlen]
    · simp [hlen]
  | some e =>
    rw [hres] at hsend
    cases hcmp : c.dynType.isComparable with
    | true =>
      simp only [hcmp, if_true] at hsend
      refine ⟨sendFailedWorld env g w c ctx (v :: vals) e,
        List.range' w.heap.length (v :: vals).length,
        (v :: vals).map (Message.retag g.url), some e, by simp only [hsend, Outcome.world], ?_,
        ?_, rfl, ?_, hsent, hpay, hfreshAddr, hkeep msg v hv, hmore, hkeep,
        fun _ => ⟨_, _, hsend⟩⟩
      · simp [newEvents, sendFailedWorld, sendCalls, sendEvent, Event.isSend]
      · simp [hlen]
      · simp [hlen]
    | false =>
      simp only [hcmp, Bool.false_eq_true, if_false] at hsend
      refine ⟨sendPanicWorld g w c ctx (v :: vals) e,
        List.range' w.heap.length (v :: vals).length,
        (v :: vals).map (Message.retag g.url), some e, by simp only [hsend, Outcome.world], ?_,
        ?_, rfl, ?_, hsent, hpay, hfreshAddr, hkeep msg v hv, hmore, hkeep, ?_⟩
      · simp [newEvents, sendPanicWorld, sendCalls, sendEvent, Event.isSend]
      · simp [hlen]
      · simp [hlen]
      · intro h
        rcases h with h | h
        · cases h
        · cases h

/-- The theorem of C3 at a live supervisor whose caller passes two messages
addressed elsewhere. -/
theorem send_retags_copies_witness :
    demoPeer.peer = some (.ptr 0) ∧
    demoStore.heap[0]? = some { To := "ws://other", payload := [1, 2] } ∧
    [1].map (fun a => demoStore.heap[a]?) = [{ To := "", payload := [3] }].map some ∧
    ∃ w1 ptrs sent err, (send healthyEnv demoPeer demoStore 0 0 [1]).world = w1 ∧
      sendCalls (newEvents demoStore w1) = [.peerSend (.ptr 0) 0 ptrs (sent.map some) err] ∧
      ptrs.length = [1].length + 1 ∧
      sent = [{ To := "ws://other", payload := [1, 2] },
        { To := "", payload := [3] }].map (Message.retag demoPeer.url) ∧
      sent.length = [1].length + 1 ∧
      (∀ m ∈ sent, m.To = demoPeer.url) ∧
      sent.map Message.payload = [{ To := "ws://other", payload := [1, 2] },
        { To := "", payload := [3] }].map Message.payload ∧
      (∀ a ∈ ptrs, demoStore.heap.length ≤ a) ∧
      w1.heap[0]? = some { To := "ws://other", payload := [1, 2] } ∧
      [1].map (fun a => w1.heap[a]?) = [{ To := "", payload := [3] }].map some ∧
      (∀ (a : MsgPtr) (x : Message), demoStore.heap[a]? = some x → w1.heap[a]? = some x) ∧
      ((err = none ∨ (Peer.ptr 0).dynType.isComparable = true) →
        ∃ r g1, send healthyEnv demoPeer demoStore 0 0 [1] = .returned r g1 w1) :=
  ⟨rfl, rfl, rfl, send_retags_copies healthyEnv demoPeer demoStore 0 0 [1] (.ptr 0)
    { To := "ws://other", payload := [1, 2] } [{ To := "", payload := [3] }] rfl rfl rfl⟩

/-- C4: when the connection slot is empty, `send` returns `(false, nil)`,
leaves the supervisor as it was, only takes and releases the mutex, calls no
connection and the factory not at all, schedules nothing and touches no
message. -/
theorem send_down_noop (env : Env) (g : gunPeer) (w : World) (ctx : Context) (msg : MsgPtr)
    (moreMsgs : List MsgPtr) (h : (connectedPeer g w).1 = none) :
    ∃ w1, send env g w ctx msg moreMsgs = .returned (false, none) g w1 ∧
      w1 = { trace := w.trace ++ [.lock, .unlock], heap := w.heap } ∧
      peerCalls (newEvents w w1) = [] ∧
      factoryCalls (newEvents w w1) = 0 ∧
      scheduled (newEvents w w1) = [] := by
  have hp : g.peer = none := h
  refine ⟨_, ?_, rfl, ?_, ?_, ?_⟩
  · simp [send, connectedPeer, hp, World.emit]
  · rw [newEvents_append]
    simp [peerCalls, Event.isPeerCall]
  · rw [newEvents_append]
    simp [factoryCalls, Event.isFactoryCall]
  · rw [newEvents_append]
    simp [scheduled, Event.delay?]

/-- The theorem of C4 at a supervisor whose connection broke. -/
theorem send_down_noop_witness :
    (connectedPeer downPeer demoStore).1 = none ∧
    ∃ w1, send brokenEnv downPeer demoStore 0 0 [1] = .returned (false, none) downPeer w1 ∧
      w1 = { trace := demoStore.trace ++ [.lock, .unlock], heap := demoStore.heap } ∧
      peerCalls (newEvents demoStore w1) = [] ∧
      factoryCalls (newEvents demoStore w1) = 0 ∧
      scheduled (newEvents demoStore w1) = [] :=
  ⟨rfl, send_down_noop brokenEnv downPeer demoStore 0 0 [1] rfl⟩

/-- What `receive` does on a live supervisor, in closed form. -/
theorem receive_live (env : Env) (g : gunPeer) (w : World) (ctx : Context) (c : Peer)
    (r : ReceiveResult) (hc : g.peer = some c) (hr : env.peerReceive (receiveWorld w) c ctx = r) :
    receive env g w ctx =
      match r.err with
      | some e =>
        if c.dynType.isComparable then
          .returned (false, none, some e) { g with peer := none, peerBad := true }
            { trace := w.trace ++ [.lock, .unlock, .peerReceive c ctx r.msgs (some e), .lock,
                .peerClose c (env.peerClose ((receivedWorld w c ctx r).emit .lock) c),
                .afterFunc g.sleepOnErr, .unlock],
              heap := w.heap ++ r.alloc }
        else
          .panicked g
            { trace := w.trace ++ [.lock, .unlock, .peerReceive c ctx r.msgs (some e), .lock,
                .unlock],
              heap := w.heap ++ r.alloc }
      | none => .returned (true, r.msgs, none) g (receivedWorld w c ctx r) := by
  have hr2 : env.peerReceive ((w.emit .lock).emit .unlock) c ctx = r := hr
  simp only [receive, connectedPeer, hc, hr2]
  cases hres : r.err with
  | none => simp [receivedWorld, World.emit, hres]
  | some e =>
    cases hcmp : c.dynType.isComparable with
    | true => simp [receivedWorld, World.emit, markPeerErrored, hc, hres, Peer.eq?_self, hcmp]
    | false => simp [receivedWorld, World.emit, markPeerErrored, hc, hres, Peer.eq?_self, hcmp]

/-- Clearing a down flag that is already clear changes nothing. -/
theorem clear_peerBad_of_Idle (g : gunPeer) (h : Idle g) :
    ({ g with peerBad := false } : gunPeer) = g := by
  obtain ⟨url, f, d, id, peer, bad⟩ := g
  obtain ⟨_, hb⟩ := h
  simp only at hb
  subst hb
  rfl

/-- Whatever the state before, the supervisor is idle after `Close`. -/
theorem Idle_after_Close (env : Env) (g : gunPeer) (w : World) : Idle (Close env g w).2.1 := by
  cases hp : g.peer with
  | none => simp [Close, hp, Idle]
  | some c => simp [Close, hp, Idle]

/-- C8: from every state `Close` leaves the slot empty and the down flag
clear, so `closed` is true, whatever the connection's own close answered.  If
a connection `c` was installed, `c.Close` is called exactly once and its
result is what `Close` returns; if none was installed, no connection is
called and `Close` returns nil.  `Close` neither calls the factory nor
schedules a reconnect attempt. -/
theorem Close_idles (env : Env) (g : gunPeer) (w : World) :
    (Close env g w).2.1 = { g with peer := none, peerBad := false } ∧
    Idle (Close env g w).2.1 ∧
    (∀ w2, (closed (Close env g w).2.1 w2).1 = true) ∧
    (∀ c, g.peer = some c →
      (Close env g w).1 = env.peerClose (w.emit .lock) c ∧
      newEvents w (Close env g w).2.2 = [.lock, .peerClose c (Close env g w).1, .unlock] ∧
      closeCalls (newEvents w (Close env g w).2.2) = [c]) ∧
    (g.peer = none →
      (Close env g w).1 = none ∧
      newEvents w (Close env g w).2.2 = [.lock, .unlock] ∧
      peerCalls (newEvents w (Close env g w).2.2) = []) ∧
    factoryCalls (newEvents w (Close env g w).2.2) = 0 ∧
    scheduled (newEvents w (Close env g w).2.2) = [] ∧
    (Close env g w).2.2.heap = w.heap := by
  cases hp : g.peer with
  | none =>
    simp [Close, hp, Idle, closed, newEvents, World.emit, peerCalls, Event.isPeerCall,
      factoryCalls, Event.isFactoryCall, scheduled, Event.delay?]
  | some c =>
    simp [Close, hp, Idle, closed, newEvents, World.emit, closeCalls, Event.closedPeer?,
      factoryCalls, Event.isFactoryCall, scheduled, Event.delay?]

/-- The theorem of C8 at a live supervisor whose connection fails to close
and at a supervisor with an empty slot. -/
theorem Close_idles_witness :
    (demoPeer.peer = some (.ptr 0) ∧
      (Close brokenEnv demoPeer demoStore).1 = brokenEnv.peerClose (demoStore.emit .lock) (.ptr 0) ∧
      newEvents demoStore (Close brokenEnv demoPeer demoStore).2.2
        = [.lock, .peerClose (.ptr 0) (Close brokenEnv demoPeer demoStore).1, .unlock] ∧
      closeCalls (newEvents demoStore (Close brokenEnv demoPeer demoStore).2.2) = [(.ptr 0)]) ∧
    (downPeer.peer = none ∧
      (Close brokenEnv downPeer demoStore).1 = none ∧
      newEvents demoStore (Close brokenEnv downPeer demoStore).2.2 = [.lock, .unlock] ∧
      peerCalls (newEvents demoStore (Close brokenEnv downPeer demoStore).2.2) = []) :=
  ⟨⟨rfl, (Close_idles brokenEnv demoPeer demoStore).2.2.2.1 (.ptr 0) rfl⟩,
    ⟨rfl, (Close_idles brokenEnv downPeer demoStore).2.2.2.2.1 rfl⟩⟩

/-- C9: a second `Close` right after a first one returns nil, whatever the
first returned, only takes and releases the mutex, so it closes no connection,
and leaves the supervisor exactly as the first `Close` left it. -/
theorem Close_twice (env : Env) (g : gunPeer) (w : World) :
    Close env (Close env g w).2.1 (Close env g w).2.2 =
      (none, (Close env g w).2.1,
        { trace := (Close env g w).2.2.trace ++ [.lock, .unlock],
          heap := (Close env g w).2.2.heap }) ∧
    Idle (Close env g w).2.1 ∧
    closeCalls (newEvents (Close env g w).2.2
      (Close env (Close env g w).2.1 (Close env g w).2.2).2.2) = [] := by
  cases hp : g.peer with
  | none => simp [Close, hp, Idle, World.emit, newEvents, closeCalls, Event.closedPeer?]
  | some c => simp [Close, hp, Idle, World.emit, newEvents, closeCalls, Event.closedPeer?]

/-- On an idle supervisor every operation that does not panic only takes and
releases the mutex. -/
theorem step_of_Idle (env : Env) (g : gunPeer) (w : World) (op : Op) (h : Idle g)
    (hop : op ≠ .markPeerErrored none) :
    step env g w op = some (g, { trace := w.trace ++ [.lock, .unlock], heap := w.heap }) := by
  have hclear := clear_peerBad_of_Idle g h
  obtain ⟨hp, hb⟩ := h
  cases op with
  | send ctx msg moreMsgs => simp [step, send, connectedPeer, hp, World.emit, Outcome.next]
  | receive ctx => simp [step, receive, connectedPeer, hp, World.emit, Outcome.next]
  | Close =>
    rw [hp] at hclear
    simp [step, Close, hp, World.emit, hclear]
  | closed => simp [step, closed, World.emit]
  | connectedPeer => simp [step, connectedPeer, World.emit]
  | markPeerErrored p =>
    cases p with
    | none => exact absurd rfl hop
    | some c => simp [step, markPeerErrored, hp, World.emit, Outcome.next, Peer.eq?]
  | reconnectPeer => simp [step, reconnectPeer, hp, hb, World.emit]

/-- Running operations on an idle supervisor never panics, never changes the
supervisor and logs nothing but mutex events. -/
theorem run_of_Idle (env : Env) (g : gunPeer) (h : Idle g) :
    ∀ (ops : List Op) (w : World), (∀ op ∈ ops, op ≠ .markPeerErrored none) →
      ∃ w1, run env ops g w = some (g, w1) ∧ w1.heap = w.heap ∧
        ∃ xs, w1.trace = w.trace ++ xs ∧ ∀ e ∈ xs, e = .lock ∨ e = .unlock
  | [], w, _ => ⟨w, rfl, rfl, [], by simp, by simp⟩
  | op :: ops, w, hops => by
    have hstep := step_of_Idle env g w op h (hops op (List.mem_cons_self _ _))
    obtain ⟨w1, hrun, hheap, xs, htrace, hxs⟩ :=
      run_of_Idle env g h ops { trace := w.trace ++ [.lock, .unlock], heap := w.heap }
        (fun o ho => hops o (List.mem_cons_of_mem _ ho))
    refine ⟨w1, ?_, hheap, [.lock, .unlock] ++ xs, ?_, ?_⟩
    · simp only [run, hstep, hrun]
    · rw [htrace, List.append_assoc]
    · intro e he
      rcases List.mem_append.1 he with h1 | h1
      · simp at h1
        exact h1
      · exact hxs e h1

/-- C10: once `Close` has returned, any sequence of `send`, `receive`,
`Close`, `closed`, `connectedPeer`, `markPeerErrored` on an actual connection
and timer firings (`reconnectPeer`) runs without panic and leaves the
supervisor exactly as `Close` left it: `connectedPeer` stays none, the factory
is never called, no connection is called, nothing is scheduled and no message
is touched.  In particular a timer that fires after `Close`, at that point or
after any such sequence, makes `reconnectPeer` return nil having only taken
and released the mutex. -/
theorem Close_is_terminal (env : Env) (g : gunPeer) (w : World) (e0 : Option Error)
    (g0 : gunPeer) (w0 : World) (ops : List Op)
    (hclose : Close env g w = (e0, g0, w0))
    (hops : ∀ op ∈ ops, op ≠ .markPeerErrored none) :
    ∃ w1, run env ops g0 w0 = some (g0, w1) ∧
      Idle g0 ∧
      (connectedPeer g0 w1).1 = none ∧
      factoryCalls (newEvents w0 w1) = 0 ∧
      peerCalls (newEvents w0 w1) = [] ∧
      scheduled (newEvents w0 w1) = [] ∧
      w1.heap = w0.heap ∧
      reconnectPeer g0 w1 =
        (none, g0, { trace := w1.trace ++ [.lock, .unlock], heap := w1.heap }) := by
  have hidle : Idle g0 := by
    have := Idle_after_Close env g w
    rw [hclose] at this
    exact this
  obtain ⟨w1, hrun, hheap, xs, htrace, hxs⟩ := run_of_Idle env g0 hidle ops w0 hops
  have hnew : newEvents w0 w1 = xs := by simp [newEvents, htrace]
  refine ⟨w1, hrun, hidle, hidle.1, ?_, ?_, ?_, hheap, ?_⟩
  · rw [hnew, factoryCalls, List.countP_eq_zero]
    intro e he
    rcases hxs e he with rfl | rfl <;> simp [Event.isFactoryCall]
  · rw [hnew, peerCalls, List.filter_eq_nil_iff]
    intro e he
    rcases hxs e he with rfl | rfl <;> simp [Event.isPeerCall]
  · rw [hnew, scheduled, List.filterMap_eq_nil_iff]
    intro e he
    rcases hxs e he with rfl | rfl <;> simp [Event.delay?]
  · simp [reconnectPeer, hidle.1, hidle.2, World.emit]

/-- The theorem of C10 at a supervisor closed while a reconnect was pending. -/
theorem Close_is_terminal_witness :
    Close brokenEnv downPeer demoStore
      = (none, idlePeer, { trace := [.lock, .unlock], heap := demoStore.heap }) ∧
    (∀ op ∈ [Op.reconnectPeer, .send 0 0 [1], .receive 0, .markPeerErrored (some (.ptr 0)), .Close,
      .closed, .connectedPeer, .reconnectPeer], op ≠ .markPeerErrored none) ∧
    ∃ w1, run brokenEnv [Op.reconnectPeer, .send 0 0 [1], .receive 0,
        .markPeerErrored (some (.ptr 0)), .Close, .closed, .connectedPeer, .reconnectPeer]
        idlePeer { trace := [.lock, .unlock], heap := demoStore.heap } = some (idlePeer, w1) ∧
      Idle idlePeer ∧
      (connectedPeer idlePeer w1).1 = none ∧
      factoryCalls (newEvents { trace := [.lock, .unlock], heap := demoStore.heap } w1) = 0 ∧
      peerCalls (newEvents { trace := [.lock, .unlock], heap := demoStore.heap } w1) = [] ∧
      scheduled (newEvents { trace := [.lock, .unlock], heap := demoStore.heap } w1) = [] ∧
      w1.heap = demoStore.heap ∧
      reconnectPeer idlePeer w1 =
        (none, idlePeer, { trace := w1.trace ++ [.lock, .unlock], heap := w1.heap }) :=
  ⟨rfl, by decide,
    Close_is_terminal brokenEnv downPeer demoStore none idlePeer
      { trace := [.lock, .unlock], heap := demoStore.heap } _ rfl (by decide)⟩

/-! ## Reconnecting -/

/-- What `reconnectPeer` does when the slot is empty and the down flag set. -/
theorem reconnectPeer_down (g : gunPeer) (w : World) (hp : g.peer = none)
    (hb : g.peerBad = true) :
    reconnectPeer g w =
      match (g.connPeer (w.emit .lock)).2 with
      | some err =>
        (some err, { g with peer := (g.connPeer (w.emit .lock)).1, peerBad := true },
          { trace := w.trace ++ [.lock, .connPeer (g.connPeer (w.emit .lock)).1 (some err),
              .afterFunc g.sleepOnErr, .unlock],
            heap := w.heap })
      | none =>
        (none, { g with peer := (g.connPeer (w.emit .lock)).1, peerBad := false },
          { trace := w.trace ++ [.lock, .connPeer (g.connPeer (w.emit .lock)).1 none, .unlock],
            heap := w.heap }) := by
  simp only [reconnectPeer, hp, hb, Option.isNone_none, Bool.and_self, if_true]
  cases hr : (g.connPeer (w.emit .lock)).2 with
  | none => simp [World.emit]
  | some err => simp [World.emit]

/-- What `reconnectPeer` does in any other state: nothing but the mutex. -/
theorem reconnectPeer_noop (g : gunPeer) (w : World)
    (h : ¬ (g.peer = none ∧ g.peerBad = true)) :
    reconnectPeer g w = (none, g, { trace := w.trace ++ [.lock, .unlock], heap := w.heap }) := by
  have hguard : (g.peer.isNone && g.peerBad) = false := by
    cases hp : g.peer with
    | none =>
      cases hb : g.peerBad with
      | false => rfl
      | true => exact absurd ⟨hp, hb⟩ h
    | some c => rfl
  simp [reconnectPeer, hguard, World.emit]

/-- C7 fails on the code where the factory returns an error together with a
connection value: the supervisor built by `newGunPeer` sees a `send` fail and
return `(false, err)`, after which the slot is empty; then a reconnect attempt
fails (`reconnectPeer` returns the factory's error), and after that failed
attempt `connectedPeer` is non-none although no reconnect has succeeded. -/
theorem failed_reconnect_fills_slot :
    newGunPeer "ws://here" sloppyFactory 10 demoStore = ((some sloppyPeer, none), sloppyWorld) ∧
    send brokenEnv sloppyPeer sloppyWorld 0 0 [1]
      = .returned (false, some "send: broken pipe") sloppyDown (afterFailedSend sloppyWorld) ∧
    (connectedPeer sloppyDown (afterFailedSend sloppyWorld)).1 = none ∧
    sloppyFactory ((afterFailedSend sloppyWorld).emit .lock)
      = (some (.ptr 1), some "dial: refused") ∧
    (reconnectPeer sloppyDown (afterFailedSend sloppyWorld)).1 = some "dial: refused" ∧
    ∃ g2 w2, run brokenEnv [.reconnectPeer] sloppyDown (afterFailedSend sloppyWorld)
        = some (g2, w2) ∧
      (connectedPeer g2 w2).1 = some (.ptr 1) :=
  ⟨rfl, rfl, rfl, rfl, rfl, _, _, rfl, rfl⟩

/-- C12: when the `Send` call of a live supervisor's connection `c` returns
no error, `send` returns `(true, nil)` and the supervisor is unchanged: the
slot still holds `c` and the down flag is what it was; `c.Close` is not
called, the factory is not called and nothing is scheduled. -/
theorem send_success_frame (env : Env) (g : gunPeer) (w : World) (ctx : Context)
    (msg : MsgPtr) (moreMsgs : List MsgPtr) (c : Peer) (v : Message) (vals : List Message)
    (hc : g.peer = some c) (hv : w.heap[msg]? = some v)
    (hvs : moreMsgs.map (fun a => w.heap[a]?) = vals.map some)
    (hok : env.peerSend (sendWorld g w (v :: vals)) c ctx
      (List.range' w.heap.length (v :: vals).length) = none) :
    ∃ w1, send env g w ctx msg moreMsgs = .returned (true, none) g w1 ∧
      (connectedPeer g w1).1 = some c ∧
      (g.peerBad = false → Live g ∧ g.peerBad = false) ∧
      closeCalls (newEvents w w1) = [] ∧
      factoryCalls (newEvents w w1) = 0 ∧
      scheduled (newEvents w w1) = [] ∧
      newEvents w w1 = [.lock, .unlock, sendEvent g w c ctx (v :: vals) none] := by
  have hsend := send_live env g w ctx msg moreMsgs c v vals hc hv hvs
  rw [hok] at hsend
  refine ⟨_, hsend, hc, fun hb => ⟨by simp [Live, hc], hb⟩, ?_, ?_, ?_, ?_⟩
  · rw [newEvents_append]
    simp [closeCalls, sendEvent, Event.closedPeer?]
  · rw [newEvents_append]
    simp [factoryCalls, sendEvent, Event.isFactoryCall]
  · rw [newEvents_append]
    simp [scheduled, sendEvent, Event.delay?]
  · rw [newEvents_append]

/-- The theorem of C12 at a live supervisor on healthy connections. -/
theorem send_success_frame_witness :
    demoPeer.peer = some (.ptr 0) ∧
    demoStore.heap[0]? = some { To := "ws://other", payload := [1, 2] } ∧
    [1].map (fun a => demoStore.heap[a]?) = [{ To := "", payload := [3] }].map some ∧
    healthyEnv.peerSend
      (sendWorld demoPeer demoStore [{ To := "ws://other", payload := [1, 2] },
        { To := "", payload := [3] }]) (.ptr 0) 0
      (List.range' demoStore.heap.length
        [({ To := "ws://other", payload := [1, 2] } : Message), { To := "", payload := [3] }].length)
      = none ∧
    ∃ w1, send healthyEnv demoPeer demoStore 0 0 [1] = .returned (true, none) demoPeer w1 ∧
      (connectedPeer demoPeer w1).1 = some (.ptr 0) ∧
      (demoPeer.peerBad = false → Live demoPeer ∧ demoPeer.peerBad = false) ∧
      closeCalls (newEvents demoStore w1) = [] ∧
      factoryCalls (newEvents demoStore w1) = 0 ∧
      scheduled (newEvents demoStore w1) = [] ∧
      newEvents demoStore w1 = [.lock, .unlock, sendEvent demoPeer demoStore (.ptr 0) 0
        [{ To := "ws://other", payload := [1, 2] }, { To := "", payload := [3] }] none] :=
  ⟨rfl, rfl, rfl, rfl, send_success_frame healthyEnv demoPeer demoStore 0 0 [1] (.ptr 0)
    { To := "ws://other", payload := [1, 2] } [{ To := "", payload := [3] }] rfl rfl rfl rfl⟩

/-- C14: in every state that is Live (slot set) or Idle (slot empty, down flag
false) `reconnectPeer` returns nil, leaves the supervisor as it was, only
takes and releases the mutex, calls the factory zero times and schedules
nothing. -/
theorem reconnect_noop_unless_down (g : gunPeer) (w : World) (h : Live g ∨ Idle g) :
    ∃ w1, reconnectPeer g w = (none, g, w1) ∧
      w1 = { trace := w.trace ++ [.lock, .unlock], heap := w.heap } ∧
      factoryCalls (newEvents w w1) = 0 ∧
      scheduled (newEvents w w1) = [] := by
  have hno : ¬ (g.peer = none ∧ g.peerBad = true) := by
    rintro ⟨hp, hb⟩
    rcases h with hl | hi
    · exact hl hp
    · rw [hi.2] at hb
      cases hb
  refine ⟨_, reconnectPeer_noop g w hno, rfl, ?_, ?_⟩
  · rw [newEvents_append]
    simp [factoryCalls, Event.isFactoryCall]
  · rw [newEvents_append]
    simp [scheduled, Event.delay?]

/-- The theorem of C14 at a live and at an idle supervisor. -/
theorem reconnect_noop_unless_down_witness :
    ((Live demoPeer ∨ Idle demoPeer) ∧
      ∃ w1, reconnectPeer demoPeer demoStore = (none, demoPeer, w1) ∧
        w1 = { trace := demoStore.trace ++ [.lock, .unlock], heap := demoStore.heap } ∧
        factoryCalls (newEvents demoStore w1) = 0 ∧
        scheduled (newEvents demoStore w1) = []) ∧
    ((Live idlePeer ∨ Idle idlePeer) ∧
      ∃ w1, reconnectPeer idlePeer demoStore = (none, idlePeer, w1) ∧
        w1 = { trace := demoStore.trace ++ [.lock, .unlock], heap := demoStore.heap } ∧
        factoryCalls (newEvents demoStore w1) = 0 ∧
        scheduled (newEvents demoStore w1) = []) :=
  ⟨⟨Or.inl (by simp [Live, demoPeer]),
      reconnect_noop_unless_down demoPeer demoStore (Or.inl (by simp [Live, demoPeer]))⟩,
    ⟨Or.inr ⟨rfl, rfl⟩, reconnect_noop_unless_down idlePeer demoStore (Or.inr ⟨rfl, rfl⟩)⟩⟩

/-- With an empty slot `send` only reads the slot. -/
theorem send_empty (env : Env) (g : gunPeer) (w : World) (ctx : Context) (msg : MsgPtr)
    (moreMsgs : List MsgPtr) (hp : g.peer = none) :
    send env g w ctx msg moreMsgs = .returned (false, none) g ((w.emit .lock).emit .unlock) := by
  simp only [send, connectedPeer, hp]

/-- With an empty slot `receive` only reads the slot. -/
theorem receive_empty (env : Env) (g : gunPeer) (w : World) (ctx : Context)
    (hp : g.peer = none) :
    receive env g w ctx = .returned (false, none, none) g ((w.emit .lock).emit .unlock) := by
  simp only [receive, connectedPeer, hp]

/-- C13 fails on the code where the factory returns an error together with a
connection value: on the Down-Retrying supervisor left by a failed `send`, the
reconnect attempt fails (`reconnectPeer` returns the factory's error) and
schedules one retry, yet it leaves that connection in the slot with the down
flag set, which is not Down-Retrying.  The retry cannot act: when it fires,
`reconnectPeer` calls no factory and schedules nothing, so no timer is left,
while `send` goes on using the connection with the down flag set. -/
theorem sloppy_reconnect_not_down :
    DownRetrying sloppyDown ∧
    sloppyDown.connPeer ((afterFailedSend sloppyWorld).emit .lock)
      = (some (.ptr 1), some "dial: refused") ∧
    (reconnectPeer sloppyDown (afterFailedSend sloppyWorld)).1 = some "dial: refused" ∧
    (reconnectPeer sloppyDown (afterFailedSend sloppyWorld)).2.1 = sloppyStuck ∧
    sloppyStuck.peer = some (.ptr 1) ∧
    sloppyStuck.peerBad = true ∧
    ¬ DownRetrying sloppyStuck ∧
    scheduled (newEvents (afterFailedSend sloppyWorld)
      (reconnectPeer sloppyDown (afterFailedSend sloppyWorld)).2.2) = [10] ∧
    ∃ w2, runTimers healthyEnv [.reconnectPeer, .reconnectPeer] sloppyDown
        (afterFailedSend sloppyWorld) 1 = some (sloppyStuck, w2, 0) ∧
      factoryCalls (newEvents (afterFailedSend sloppyWorld) w2) = 1 ∧
      ∃ w3, send healthyEnv sloppyStuck w2 0 0 [1] = .returned (true, none) sloppyStuck w3 := by
  refine ⟨⟨rfl, rfl⟩, rfl, rfl, rfl, rfl, rfl, ?_, rfl, _, rfl, rfl, _, rfl⟩
  intro h
  have h1 : (some (Peer.ptr 1) : Option Peer) = none := h.1
  cases h1

/-! ## The shape of every operation -/

/-- Cloning leaves the log alone. -/
theorem Clone_trace (w : World) (m : MsgPtr) (a : MsgPtr) (w1 : World)
    (h : Clone w m = some (a, w1)) : w1.trace = w.trace := by
  unfold Clone at h
  split at h
  · cases h
  · simp only [Option.some.injEq, Prod.mk.injEq] at h
    rw [← h.2]

/-- Retagging leaves the log alone. -/
theorem setTo_trace (w : World) (m : MsgPtr) (dest : String) (w1 : World)
    (h : setTo w m dest = some w1) : w1.trace = w.trace := by
  unfold setTo at h
  split at h
  · cases h
  · simp only [Option.some.injEq] at h
    rw [← h]

/-- The loop of `send` leaves the log alone, whether it completes or not. -/
theorem cloneMore_trace (url : String) :
    ∀ (ms : List MsgPtr) (w : World), (cloneMore url w ms).2.trace = w.trace
  | [], w => rfl
  | m :: rest, w => by
    unfold cloneMore
    split
    · rfl
    · rename_i a wa hclone
      split
      · exact Clone_trace w m a wa hclone
      · rename_i wb hset
        have ih := cloneMore_trace url rest wb
        split
        · rename_i wc hrest
          rw [hrest] at ih
          exact ih.trans ((setTo_trace wa a url wb hset).trans (Clone_trace w m a wa hclone))
        · rename_i updated wc hrest
          rw [hrest] at ih
          exact ih.trans ((setTo_trace wa a url wb hset).trans (Clone_trace w m a wa hclone))

/-- A connection compares equal to the slot only when it is the installed
connection and its type is comparable. -/
theorem Peer.eq?_some_true (a : Peer) (q : Option Peer) (h : Peer.eq? (some a) q = some true) :
    q = some a ∧ a.dynType.isComparable = true := by
  cases q with
  | none => simp [Peer.eq?] at h
  | some b =>
    simp only [Peer.eq?] at h
    split at h
    · simp at h
    · rename_i hty
      split at h
      · rename_i hc
        simp only [Option.some.injEq, decide_eq_true_eq] at h
        have hty2 : a.dynType = b.dynType := by
          by_contra hne
          exact hty hne
        refine ⟨?_, hc⟩
        cases a
        cases b
        simp only at hty2 h
        rw [hty2, h]
      · cases h

/-- Every `send` that returns reads the slot, makes at most one `Send` call
with the mutex released and then either leaves the supervisor alone or marks
the installed connection errored. -/
theorem send_shape (env : Env) (g : gunPeer) (w : World) (ctx : Context) (msg : MsgPtr)
    (moreMsgs : List MsgPtr) (r : Bool × Option Error) (g1 : gunPeer) (w1 : World)
    (h : send env g w ctx msg moreMsgs = .returned r g1 w1) :
    ∃ pre post, w1.trace = w.trace ++ (pre ++ post) ∧ IsPrelude pre ∧ Change g g1 post := by
  unfold send at h
  simp only [connectedPeer] at h
  split at h
  · simp only [Outcome.returned.injEq] at h
    obtain ⟨_, hg, hw⟩ := h
    subst hg
    subst hw
    exact ⟨[.lock, .unlock], [], by simp [World.emit], Or.inr (Or.inl rfl), Change.same⟩
  · rename_i c hc
    split at h
    · cases h
    · rename_i a wa hclone
      split at h
      · cases h
      · rename_i wb hset
        split at h
        · cases h
        · rename_i updated wc hmore
          have htrace : wc.trace = w.trace ++ [.lock, .unlock] := by
            have := cloneMore_trace g.url moreMsgs wb
            rw [hmore] at this
            rw [this, setTo_trace wa a g.url wb hset,
              Clone_trace ((w.emit .lock).emit .unlock) msg a wa hclone]
            simp [World.emit]
          have hpre : ∀ err, IsPrelude [.lock, .unlock,
              Event.peerSend c ctx (a :: updated) ((a :: updated).map fun x => wc.heap[x]?) err] :=
            fun err => Or.inr (Or.inr ⟨Event.peerSend c ctx (a :: updated)
              ((a :: updated).map fun x => wc.heap[x]?) err, rfl, rfl⟩)
          split at h
          · rename_i err herr
            cases hcmp : c.dynType.isComparable with
            | false =>
              rw [markPeerErrored_self_panic env g _ c hc hcmp] at h
              cases h
            | true =>
              rw [markPeerErrored_hit env g _ c hc hcmp] at h
              simp only [Outcome.returned.injEq] at h
              obtain ⟨_, hg, hw⟩ := h
              subst hg
              subst hw
              refine ⟨_, _, ?_, hpre (env.peerSend wc c ctx (a :: updated)),
                Change.errored c (env.peerClose ((wc.emit (Event.peerSend c ctx (a :: updated)
                  ((a :: updated).map fun x => wc.heap[x]?)
                  (env.peerSend wc c ctx (a :: updated)))).emit .lock) c) hc⟩
              simp [World.emit, htrace]
          · simp only [Outcome.returned.injEq] at h
            obtain ⟨_, hg, hw⟩ := h
            subst hg
            subst hw
            refine ⟨_, [], ?_, hpre (env.peerSend wc c ctx (a :: updated)), Change.same⟩
            simp [World.emit, htrace]

/-- Every `receive` that returns reads the slot, makes at most one `Receive`
call with the mutex released and then either leaves the supervisor alone or
marks the installed connection errored. -/
theorem receive_shape (env : Env) (g : gunPeer) (w : World) (ctx : Context)
    (r : Bool × Option (List MsgPtr) × Option Error) (g1 : gunPeer) (w1 : World)
    (h : receive env g w ctx = .returned r g1 w1) :
    ∃ pre post, w1.trace = w.trace ++ (pre ++ post) ∧ IsPrelude pre ∧ Change g g1 post := by
  cases hp : g.peer with
  | none =>
    rw [receive_empty env g w ctx hp] at h
    simp only [Outcome.returned.injEq] at h
    obtain ⟨_, hg, hw⟩ := h
    subst hg
    subst hw
    exact ⟨[.lock, .unlock], [], by simp [World.emit], Or.inr (Or.inl rfl), Change.same⟩
  | some c =>
    rw [receive_live env g w ctx c _ hp rfl] at h
    cases herr : (env.peerReceive (receiveWorld w) c ctx).err with
    | none =>
      rw [herr] at h
      simp only [Outcome.returned.injEq] at h
      obtain ⟨_, hg, hw⟩ := h
      subst hg
      subst hw
      exact ⟨[.lock, .unlock,
          .peerReceive c ctx (env.peerReceive (receiveWorld w) c ctx).msgs none], [],
        by simp [receivedWorld, herr],
        Or.inr (Or.inr ⟨.peerReceive c ctx (env.peerReceive (receiveWorld w) c ctx).msgs none,
          rfl, rfl⟩), Change.same⟩
    | some e =>
      rw [herr] at h
      cases hcmp : c.dynType.isComparable with
      | false =>
        simp only [hcmp, Bool.false_eq_true, if_false] at h
        cases h
      | true =>
        simp only [hcmp, if_true, Outcome.returned.injEq] at h
        obtain ⟨_, hg, hw⟩ := h
        subst hg
        subst hw
        exact ⟨[.lock, .unlock,
            .peerReceive c ctx (env.peerReceive (receiveWorld w) c ctx).msgs (some e)],
          [.lock, .peerClose c (env.peerClose ((receivedWorld w c ctx
            (env.peerReceive (receiveWorld w) c ctx)).emit .lock) c), .afterFunc g.sleepOnErr,
            .unlock],
          by simp,
          Or.inr (Or.inr ⟨.peerReceive c ctx (env.peerReceive (receiveWorld w) c ctx).msgs
            (some e), rfl, rfl⟩), Change.errored c _ hp⟩

/-- What `next` says of an outcome that lets execution go on. -/
theorem Outcome.next_eq_some {α : Type} (o : Outcome α) (g1 : gunPeer) (w1 : World)
    (h : o.next = some (g1, w1)) : ∃ a, o = .returned a g1 w1 := by
  cases o with
  | returned a g w =>
    simp only [Outcome.next, Option.some.injEq, Prod.mk.injEq] at h
    exact ⟨a, by rw [h.1, h.2]⟩
  | panicked g w => simp [Outcome.next] at h

/-- Every operation other than `reconnectPeer` that completes logs a prelude
and then changes the supervisor in one of the four ways of `Change`. -/
theorem step_shape (env : Env) (g : gunPeer) (w : World) (op : Op) (g1 : gunPeer) (w1 : World)
    (hop : op ≠ .reconnectPeer) (h : step env g w op = some (g1, w1)) :
    ∃ pre post, w1.trace = w.trace ++ (pre ++ post) ∧ IsPrelude pre ∧ Change g g1 post := by
  have hquiet : ∀ w2 : World, w2.trace = w.trace ++ [.lock, .unlock] →
      ∃ pre post, w2.trace = w.trace ++ (pre ++ post) ∧ IsPrelude pre ∧ Change g g post :=
    fun w2 h2 => ⟨[.lock, .unlock], [], by simp [h2], Or.inr (Or.inl rfl), Change.same⟩
  cases op with
  | send ctx msg moreMsgs =>
    obtain ⟨r, hs⟩ := Outcome.next_eq_some _ g1 w1 h
    exact send_shape env g w ctx msg moreMsgs r _ _ hs
  | receive ctx =>
    obtain ⟨r, hs⟩ := Outcome.next_eq_some _ g1 w1 h
    exact receive_shape env g w ctx r _ _ hs
  | Close =>
    simp only [step, Option.some.injEq] at h
    cases hp : g.peer with
    | none =>
      have hc : Close env g w = (none, { g with peer := none, peerBad := false },
          { trace := w.trace ++ [.lock, .unlock], heap := w.heap }) := by
        obtain ⟨url, f, d, id, peer, bad⟩ := g
        simp only at hp
        subst hp
        simp [Close, World.emit]
      rw [hc] at h
      simp only [Prod.mk.injEq] at h
      obtain ⟨hg, hw⟩ := h
      subst hg
      subst hw
      exact ⟨[], _, by simp, Or.inl rfl, Change.closedEmpty hp⟩
    | some c =>
      have hc : Close env g w = (env.peerClose (w.emit .lock) c,
          { g with peer := none, peerBad := false },
          { trace := w.trace ++ [.lock, .peerClose c (env.peerClose (w.emit .lock) c), .unlock],
            heap := w.heap }) := by
        simp [Close, hp, World.emit]
      rw [hc] at h
      simp only [Prod.mk.injEq] at h
      obtain ⟨hg, hw⟩ := h
      subst hg
      subst hw
      exact ⟨[], _, by simp, Or.inl rfl,
        Change.closedConn c (env.peerClose (w.emit .lock) c) hp⟩
  | closed =>
    simp only [step, Option.some.injEq, Prod.mk.injEq] at h
    obtain ⟨hg, hw⟩ := h
    subst hg
    subst hw
    exact hquiet _ (by simp [closed, World.emit])
  | connectedPeer =>
    simp only [step, Option.some.injEq, Prod.mk.injEq] at h
    obtain ⟨hg, hw⟩ := h
    subst hg
    subst hw
    exact hquiet _ (by simp [connectedPeer, World.emit])
  | markPeerErrored p =>
    obtain ⟨u, hs⟩ := Outcome.next_eq_some _ g1 w1 h
    cases hcmp : Peer.eq? p g.peer with
    | none =>
      simp [markPeerErrored, hcmp] at hs
    | some b =>
      cases b with
      | false =>
        rw [markPeerErrored_miss env g w p hcmp] at hs
        simp only [Outcome.returned.injEq] at hs
        obtain ⟨_, hg, hw⟩ := hs
        subst hg
        subst hw
        exact hquiet _ rfl
      | true =>
        cases p with
        | none => simp [markPeerErrored, hcmp] at hs
        | some c =>
          obtain ⟨hq, hc⟩ := Peer.eq?_some_true c g.peer hcmp
          rw [markPeerErrored_hit env g w c hq hc] at hs
          simp only [Outcome.returned.injEq] at hs
          obtain ⟨_, hg, hw⟩ := hs
          subst hg
          subst hw
          exact ⟨[], _, by simp, Or.inl rfl,
            Change.errored c (env.peerClose (w.emit .lock) c) hq⟩
  | reconnectPeer => exact absurd rfl hop

/-- The new events of a world whose log extends that of `w` by `xs`. -/
theorem newEvents_of_trace (w w1 : World) (xs : List Event) (h : w1.trace = w.trace ++ xs) :
    newEvents w w1 = xs := by
  simp [newEvents, h]

/-- Every `reconnectPeer` either only takes and releases the mutex and leaves
the supervisor alone, or, from an empty slot with the down flag set, calls the
factory once under the mutex and stores what it handed back. -/
theorem reconnect_shape (g : gunPeer) (w : World) :
    (¬ (g.peer = none ∧ g.peerBad = true) ∧ (reconnectPeer g w).2.1 = g ∧
      (reconnectPeer g w).2.2.trace = w.trace ++ [.lock, .unlock]) ∨
    (g.peer = none ∧ g.peerBad = true ∧
      (((g.connPeer (w.emit .lock)).2 = none ∧
        (reconnectPeer g w).2.1 = { g with peer := (g.connPeer (w.emit .lock)).1, peerBad := false } ∧
        (reconnectPeer g w).2.2.trace
          = w.trace ++ [.lock, .connPeer (g.connPeer (w.emit .lock)).1 none, .unlock]) ∨
      (∃ e, (g.connPeer (w.emit .lock)).2 = some e ∧
        (reconnectPeer g w).2.1 = { g with peer := (g.connPeer (w.emit .lock)).1, peerBad := true } ∧
        (reconnectPeer g w).2.2.trace
          = w.trace ++ [.lock, .connPeer (g.connPeer (w.emit .lock)).1 (some e),
              .afterFunc g.sleepOnErr, .unlock]))) := by
  by_cases hd : g.peer = none ∧ g.peerBad = true
  · right
    refine ⟨hd.1, hd.2, ?_⟩
    have h := reconnectPeer_down g w hd.1 hd.2
    cases hr : (g.connPeer (w.emit .lock)).2 with
    | none =>
      rw [hr] at h
      left
      rw [h]
      exact ⟨rfl, rfl, rfl⟩
    | some e =>
      rw [hr] at h
      right
      rw [h]
      exact ⟨e, rfl, rfl, rfl⟩
  · left
    rw [reconnectPeer_noop g w hd]
    exact ⟨hd, rfl, rfl⟩

/-! ## Lock discipline -/

/-- C16 as stated fails: `Close` on a live supervisor, and `markPeerErrored`
on its installed connection, call the connection's `Close` between taking and
releasing the mutex. -/
theorem close_called_under_lock :
    newEvents demoStore (Close healthyEnv demoPeer demoStore).2.2
      = [.lock, .peerClose (.ptr 0) none, .unlock] ∧
    callsWhen Event.isPeerCall false false
      (newEvents demoStore (Close healthyEnv demoPeer demoStore).2.2) = false ∧
    markPeerErrored healthyEnv demoPeer demoStore (some (.ptr 0))
      = .returned () downPeer
          { trace := [.lock, .peerClose (.ptr 0) none, .afterFunc 10, .unlock],
            heap := demoStore.heap } ∧
    callsWhen Event.isPeerCall false false
      [.lock, .peerClose (.ptr 0) none, .afterFunc 10, .unlock] = false :=
  ⟨rfl, rfl, rfl, rfl⟩

/-- C16, amended: in the events of every operation that completes (`send`,
`receive`, `markPeerErrored`, `reconnectPeer`, `Close`, `closed`,
`connectedPeer`) every `Send` and `Receive` call on a connection happens while
the mutex is not held, and every `Close` call on a connection happens while it
is held. -/
theorem transfers_outside_lock (env : Env) (g : gunPeer) (w : World) (op : Op)
    (g1 : gunPeer) (w1 : World) (h : step env g w op = some (g1, w1)) :
    callsWhen Event.isTransfer false false (newEvents w w1) = true ∧
    callsWhen Event.isClose true false (newEvents w w1) = true := by
  by_cases hop : op = .reconnectPeer
  · subst hop
    simp only [step, Option.some.injEq] at h
    have hg : (reconnectPeer g w).2.2 = w1 := by rw [h]
    rcases reconnect_shape g w with ⟨_, _, ht⟩ | ⟨_, _, ⟨_, _, ht⟩ | ⟨e, _, _, ht⟩⟩
    all_goals
      rw [hg] at ht
      rw [newEvents_of_trace w w1 _ ht]
      simp [callsWhen, Event.isTransfer, Event.isClose]
  · obtain ⟨pre, post, ht, hpre, hch⟩ := step_shape env g w op g1 w1 hop h
    rw [newEvents_of_trace w w1 _ ht]
    rcases hpre with rfl | rfl | ⟨ev, hev, rfl⟩
    · cases hch <;> simp [callsWhen, Event.isTransfer, Event.isClose]
    · cases hch <;> simp [callsWhen, Event.isTransfer, Event.isClose]
    · cases ev <;> simp [Event.isTransfer] at hev <;>
        cases hch <;> simp [callsWhen, Event.isTransfer, Event.isClose]

/-- The amended C16 at a `send` whose `Send` fails, so that the connection is
closed as well. -/
theorem transfers_outside_lock_witness :
    step brokenEnv demoPeer demoStore (.send 0 0 [1])
      = some (downPeer, afterFailedSend demoStore) ∧
    callsWhen Event.isTransfer false false (newEvents demoStore (afterFailedSend demoStore))
      = true ∧
    callsWhen Event.isClose true false (newEvents demoStore (afterFailedSend demoStore))
      = true :=
  ⟨rfl, transfers_outside_lock brokenEnv demoPeer demoStore (.send 0 0 [1]) downPeer
    (afterFailedSend demoStore) rfl⟩

/-! ## Invariants of every run -/

/-- What a successful `newGunPeer` returns. -/
theorem newGunPeer_some (url : String) (f : Factory) (d : Duration) (w0 : World)
    (g0 : gunPeer) (w1 : World) (h : newGunPeer url f d w0 = ((some g0, none), w1)) :
    g0 = ⟨url, f, d, "", (f w0).1, false⟩ ∧ w1.trace = w0.trace ++ [.connPeer (f w0).1 none] := by
  unfold newGunPeer at h
  cases hr : (f w0).2 with
  | none =>
    simp only [hr, Prod.mk.injEq, Option.some.injEq] at h
    obtain ⟨⟨hg, _⟩, hw⟩ := h
    subst hg
    subst hw
    exact ⟨rfl, rfl⟩
  | some e => simp [hr] at h

/-- A property kept by every operation is kept by every run. -/
theorem run_invariant (env : Env) (P : gunPeer → World → Prop)
    (hstep : ∀ g w op g1 w1, P g w → step env g w op = some (g1, w1) → P g1 w1) :
    ∀ (ops : List Op) (g : gunPeer) (w : World) (g1 : gunPeer) (w1 : World),
      P g w → run env ops g w = some (g1, w1) → P g1 w1
  | [], g, w, g1, w1, hP, h => by
    simp only [run, Option.some.injEq, Prod.mk.injEq] at h
    obtain ⟨hg, hw⟩ := h
    subst hg
    subst hw
    exact hP
  | op :: ops, g, w, g1, w1, hP, h => by
    unfold run at h
    split at h
    · cases h
    · rename_i g2 w2 hs
      exact run_invariant env P hstep ops g2 w2 g1 w1 (hstep g w op g2 w2 hP hs) h

/-- Every operation keeps the factory, and keeps the down flag clear whenever
the slot is set, provided the factory hands back no connection alongside an
error. -/
theorem step_flag (env : Env) (g : gunPeer) (w : World) (op : Op) (g1 : gunPeer) (w1 : World)
    (hf : g.connPeer.noPeerOnError) (hinv : g.peer ≠ none → g.peerBad = false)
    (h : step env g w op = some (g1, w1)) :
    g1.connPeer = g.connPeer ∧ (g1.peer ≠ none → g1.peerBad = false) := by
  by_cases hop : op = .reconnectPeer
  · subst hop
    simp only [step, Option.some.injEq] at h
    have hg : (reconnectPeer g w).2.1 = g1 := by rw [h]
    rcases reconnect_shape g w with ⟨_, hsame, _⟩ | ⟨_, _, ⟨_, hnew, _⟩ | ⟨e, he, hnew, _⟩⟩
    · rw [hg] at hsame
      subst hsame
      exact ⟨rfl, hinv⟩
    · rw [hg] at hnew
      subst hnew
      exact ⟨rfl, fun _ => rfl⟩
    · rw [hg] at hnew
      subst hnew
      have hnone : (g.connPeer (w.emit .lock)).1 = none := hf _ (by rw [he]; simp)
      exact ⟨rfl, fun hne => absurd hnone hne⟩
  · obtain ⟨pre, post, _, _, hch⟩ := step_shape env g w op g1 w1 hop h
    cases hch with
    | same => exact ⟨rfl, hinv⟩
    | errored c cr hc => exact ⟨rfl, fun hne => absurd rfl hne⟩
    | closedConn c cr hc => exact ⟨rfl, fun _ => rfl⟩
    | closedEmpty hp => exact ⟨rfl, fun _ => rfl⟩

/-- C19: if the factory hands back no connection whenever it hands back an
error, then in every state reached from a successful construction by `send`,
`receive`, `markPeerErrored`, `reconnectPeer` and `Close` (and the two reads)
a set slot comes with a clear down flag.  So Live, Down-Retrying and Idle are
exactly (set, false), (unset, true) and (unset, false), and exactly one of the
three holds. -/
theorem slot_set_implies_flag_clear (env : Env) (url : String) (f : Factory) (d : Duration)
    (w0 : World) (g0 : gunPeer) (w1 : World) (ops : List Op) (g : gunPeer) (w : World)
    (hf : f.noPeerOnError)
    (hnew : newGunPeer url f d w0 = ((some g0, none), w1))
    (hrun : run env ops g0 w1 = some (g, w)) :
    (g.peer ≠ none → g.peerBad = false) ∧
    (Live g ↔ g.peer ≠ none ∧ g.peerBad = false) ∧
    (DownRetrying g ↔ g.peer = none ∧ g.peerBad = true) ∧
    (Idle g ↔ g.peer = none ∧ g.peerBad = false) ∧
    ((Live g ∧ ¬ DownRetrying g ∧ ¬ Idle g) ∨ (¬ Live g ∧ DownRetrying g ∧ ¬ Idle g) ∨
      (¬ Live g ∧ ¬ DownRetrying g ∧ Idle g)) := by
  obtain ⟨hg0, _⟩ := newGunPeer_some url f d w0 g0 w1 hnew
  have hinv : g.connPeer = f ∧ (g.peer ≠ none → g.peerBad = false) := by
    refine run_invariant env (fun g _ => g.connPeer = f ∧ (g.peer ≠ none → g.peerBad = false))
      ?_ ops g0 w1 g w ?_ hrun
    · intro g w op g1 w1 hP hs
      obtain ⟨h1, h2⟩ := step_flag env g w op g1 w1 (hP.1 ▸ hf) hP.2 hs
      exact ⟨h1.trans hP.1, h2⟩
    · subst hg0
      exact ⟨rfl, fun _ => rfl⟩
  refine ⟨hinv.2, ⟨fun hl => ⟨hl, hinv.2 hl⟩, fun h => h.1⟩, Iff.rfl, Iff.rfl, ?_⟩
  cases hp : g.peer with
  | some c =>
    left
    simp [Live, DownRetrying, Idle, hp]
  | none =>
    cases hb : g.peerBad with
    | true =>
      right
      left
      simp [Live, DownRetrying, Idle, hp, hb]
    | false =>
      right
      right
      simp [Live, DownRetrying, Idle, hp, hb]

/-- The sample factory hands back no connection alongside an error. -/
theorem retryFactory_noPeerOnError : retryFactory.noPeerOnError := by
  intro w h
  unfold retryFactory at h ⊢
  split
  · rfl
  · rename_i hne
    simp [hne] at h

/-- The theorem of C19 at the sample run: mark-errored, a refused reconnect
attempt, a successful one. -/
theorem slot_set_implies_flag_clear_witness :
    retryFactory.noPeerOnError ∧
    newGunPeer "ws://here" retryFactory 10 demoStore
      = ((some { retryEnd with peer := some (.ptr 0) }, none),
          demoStore.emit (.connPeer (some (.ptr 0)) none)) ∧
    run brokenEnv retryOps { retryEnd with peer := some (.ptr 0) }
      (demoStore.emit (.connPeer (some (.ptr 0)) none)) = some (retryEnd, retryEndWorld) ∧
    (retryEnd.peer ≠ none → retryEnd.peerBad = false) ∧
    (Live retryEnd ↔ retryEnd.peer ≠ none ∧ retryEnd.peerBad = false) ∧
    (DownRetrying retryEnd ↔ retryEnd.peer = none ∧ retryEnd.peerBad = true) ∧
    (Idle retryEnd ↔ retryEnd.peer = none ∧ retryEnd.peerBad = false) ∧
    ((Live retryEnd ∧ ¬ DownRetrying retryEnd ∧ ¬ Idle retryEnd) ∨
      (¬ Live retryEnd ∧ DownRetrying retryEnd ∧ ¬ Idle retryEnd) ∨
      (¬ Live retryEnd ∧ ¬ DownRetrying retryEnd ∧ Idle retryEnd)) :=
  ⟨retryFactory_noPeerOnError, rfl, rfl,
    slot_set_implies_flag_clear brokenEnv "ws://here" retryFactory 10 demoStore
      { retryEnd with peer := some (.ptr 0) } (demoStore.emit (.connPeer (some (.ptr 0)) none)) retryOps
      retryEnd retryEndWorld retryFactory_noPeerOnError rfl rfl⟩

/-! ## Pending timers -/

/-- A prelude schedules nothing, closes nothing and obtains no connection. -/
theorem prelude_silent (pre : List Event) (h : IsPrelude pre) :
    scheduled pre = [] ∧ closeCalls pre = [] ∧ obtained pre = [] := by
  rcases h with rfl | rfl | ⟨ev, hev, rfl⟩
  · exact ⟨rfl, rfl, rfl⟩
  · exact ⟨rfl, rfl, rfl⟩
  · cases ev <;> simp [Event.isTransfer] at hev <;> exact ⟨rfl, rfl, rfl⟩

/-- The timers an operation other than a timer firing leaves pending. -/
theorem stepTimers_of_ne (env : Env) (g : gunPeer) (w : World) (n : Nat) (op : Op)
    (hop : op ≠ .reconnectPeer) :
    stepTimers env g w n op =
      (step env g w op).map fun s => (s.1, s.2, n + (scheduled (newEvents w s.2)).length) := by
  cases op <;> first | rfl | exact absurd rfl hop

/-- The relation between state and pending timers that every operation
keeps: none with a set slot, exactly one when Down-Retrying, at most one when
Idle. -/
theorem stepTimers_keeps (env : Env) (g : gunPeer) (w : World) (n : Nat) (op : Op)
    (g1 : gunPeer) (w1 : World) (n1 : Nat) (hf : g.connPeer.noPeerOnError)
    (hlive : g.peer ≠ none → g.peerBad = false ∧ n = 0)
    (hdown : g.peer = none → g.peerBad = true → n = 1)
    (hidle : g.peer = none → g.peerBad = false → n ≤ 1)
    (h : stepTimers env g w n op = some (g1, w1, n1)) :
    g1.connPeer = g.connPeer ∧
    (g1.peer ≠ none → g1.peerBad = false ∧ n1 = 0) ∧
    (g1.peer = none → g1.peerBad = true → n1 = 1) ∧
    (g1.peer = none → g1.peerBad = false → n1 ≤ 1) := by
  by_cases hop : op = .reconnectPeer
  · subst hop
    cases n with
    | zero => simp [stepTimers] at h
    | succ m =>
      simp only [stepTimers, Option.some.injEq, Prod.mk.injEq] at h
      obtain ⟨hg, hw, hn⟩ := h
      rcases reconnect_shape g w with ⟨hno, hsame, ht⟩ | ⟨hp, hb, ⟨hr, hnew, ht⟩ | ⟨e, he, hnew, ht⟩⟩
      · rw [newEvents_of_trace w _ _ ht] at hn
        rw [hg] at hsame
        subst hsame
        simp only [scheduled, Event.delay?, List.filterMap_cons, List.filterMap_nil,
          List.length_nil, Nat.add_zero] at hn
        subst hn
        refine ⟨rfl, ?_, ?_, ?_⟩
        · intro hne
          have := (hlive hne).2
          omega
        · intro hp hb
          exact absurd ⟨hp, hb⟩ hno
        · intro hp hb
          have := hidle hp hb
          omega
      · rw [newEvents_of_trace w _ _ ht] at hn
        rw [hg] at hnew
        subst hnew
        have hm := hdown hp hb
        simp only [scheduled, Event.delay?, List.filterMap_cons, List.filterMap_nil,
          List.length_nil, Nat.add_zero] at hn
        subst hn
        refine ⟨rfl, ?_, ?_, ?_⟩
        · intro _
          exact ⟨rfl, by omega⟩
        · intro _ hb1
          cases hb1
        · intro _ _
          omega
      · rw [newEvents_of_trace w _ _ ht] at hn
        rw [hg] at hnew
        subst hnew
        have hm := hdown hp hb
        have hnone : (g.connPeer (w.emit .lock)).1 = none := hf _ (by rw [he]; simp)
        simp only [scheduled, Event.delay?, List.filterMap_cons, List.filterMap_nil,
          List.length_cons, List.length_nil] at hn
        subst hn
        refine ⟨rfl, ?_, ?_, ?_⟩
        · intro hne
          exact absurd hnone hne
        · intro _ _
          omega
        · intro _ hb1
          cases hb1
  · rw [stepTimers_of_ne env g w n op hop] at h
    simp only [Option.map_eq_some'] at h
    obtain ⟨⟨g2, w2⟩, hs, heq⟩ := h
    simp only [Prod.mk.injEq] at heq
    obtain ⟨hg, hw, hn⟩ := heq
    subst hg
    subst hw
    obtain ⟨pre, post, ht, hpre, hch⟩ := step_shape env g w op g2 w2 hop hs
    rw [newEvents_of_trace w w2 _ ht] at hn
    have hsil := (prelude_silent pre hpre).1
    simp only [scheduled, List.filterMap_append] at hn hsil
    rw [hsil] at hn
    cases hch with
    | same =>
      simp only [List.filterMap_nil, List.append_nil, List.length_nil, Nat.add_zero] at hn
      subst hn
      exact ⟨rfl, hlive, hdown, hidle⟩
    | errored c cr hc =>
      have hz := (hlive (by rw [hc]; simp)).2
      simp only [Event.delay?, List.filterMap_cons, List.filterMap_nil, List.nil_append,
        List.length_cons, List.length_nil] at hn
      subst hn
      refine ⟨rfl, fun hne => absurd rfl hne, fun _ _ => by omega, ?_⟩
      intro _ hb1
      cases hb1
    | closedConn c cr hc =>
      have hz := (hlive (by rw [hc]; simp)).2
      simp only [Event.delay?, List.filterMap_cons, List.filterMap_nil, List.nil_append,
        List.length_nil, Nat.add_zero] at hn
      subst hn
      refine ⟨rfl, fun hne => absurd rfl hne, ?_, fun _ _ => by omega⟩
      intro _ hb1
      cases hb1
    | closedEmpty hp =>
      simp only [Event.delay?, List.filterMap_cons, List.filterMap_nil, List.nil_append,
        List.length_nil, Nat.add_zero] at hn
      subst hn
      refine ⟨rfl, fun hne => absurd rfl hne, ?_, ?_⟩
      · intro _ hb1
        cases hb1
      · intro _ _
        cases hb : g.peerBad with
        | true => exact Nat.le_of_eq (hdown hp hb)
        | false => exact hidle hp hb

/-- The relation between state and pending timers is kept by every run. -/
theorem runTimers_keeps (env : Env) (f : Factory) (hf : f.noPeerOnError) :
    ∀ (ops : List Op) (g : gunPeer) (w : World) (n : Nat) (g1 : gunPeer) (w1 : World) (n1 : Nat),
      g.connPeer = f →
      (g.peer ≠ none → g.peerBad = false ∧ n = 0) →
      (g.peer = none → g.peerBad = true → n = 1) →
      (g.peer = none → g.peerBad = false → n ≤ 1) →
      runTimers env ops g w n = some (g1, w1, n1) →
      (g1.peer ≠ none → g1.peerBad = false ∧ n1 = 0) ∧
      (g1.peer = none → g1.peerBad = true → n1 = 1) ∧
      (g1.peer = none → g1.peerBad = false → n1 ≤ 1)
  | [], g, w, n, g1, w1, n1, _, hl, hd, hi, h => by
    simp only [runTimers, Option.some.injEq, Prod.mk.injEq] at h
    obtain ⟨hg, _, hn⟩ := h
    subst hg
    subst hn
    exact ⟨hl, hd, hi⟩
  | op :: ops, g, w, n, g1, w1, n1, hc, hl, hd, hi, h => by
    unfold runTimers at h
    split at h
    · cases h
    · rename_i g2 w2 n2 hs
      obtain ⟨hc2, hl2, hd2, hi2⟩ := stepTimers_keeps env g w n op g2 w2 n2 (hc ▸ hf) hl hd hi hs
      exact runTimers_keeps env f hf ops g2 w2 n2 g1 w1 n1 (hc2.trans hc) hl2 hd2 hi2 h

/-- C18: count the pending reconnect timers, each `time.AfterFunc` adding one
and each `reconnectPeer` being the firing of one.  If the factory hands back
no connection whenever it hands back an error, then in every state reached
from a successful construction (no timer pending) Live comes with no pending
timer, Down-Retrying with exactly one and Idle with at most one; so at most
one timer is ever pending. -/
theorem at_most_one_timer (env : Env) (url : String) (f : Factory) (d : Duration)
    (w0 : World) (g0 : gunPeer) (w1 : World) (ops : List Op) (g : gunPeer) (w : World) (n : Nat)
    (hf : f.noPeerOnError)
    (hnew : newGunPeer url f d w0 = ((some g0, none), w1))
    (hrun : runTimers env ops g0 w1 0 = some (g, w, n)) :
    (Live g → n = 0) ∧ (DownRetrying g → n = 1) ∧ (Idle g → n ≤ 1) ∧ n ≤ 1 := by
  obtain ⟨hg0, _⟩ := newGunPeer_some url f d w0 g0 w1 hnew
  have hstart : g0.connPeer = f ∧ g0.peerBad = false := by
    subst hg0
    exact ⟨rfl, rfl⟩
  obtain ⟨hl, hd, hi⟩ := runTimers_keeps env f hf ops g0 w1 0 g w n hstart.1
    (fun _ => ⟨hstart.2, rfl⟩)
    (fun _ hb => by rw [hstart.2] at hb; cases hb)
    (fun _ _ => Nat.zero_le _) hrun
  refine ⟨fun hlive => (hl hlive).2, fun hdown => hd hdown.1 hdown.2,
    fun hidle => hi hidle.1 hidle.2, ?_⟩
  cases hp : g.peer with
  | some c =>
    have := (hl (by rw [hp]; simp)).2
    omega
  | none =>
    cases hb : g.peerBad with
    | true => exact Nat.le_of_eq (hd hp hb)
    | false => exact hi hp hb

/-- The theorem of C18 at the sample run: mark-errored schedules a timer, it
fires and the refused attempt schedules the next, which fires and connects. -/
theorem at_most_one_timer_witness :
    retryFactory.noPeerOnError ∧
    newGunPeer "ws://here" retryFactory 10 demoStore
      = ((some { retryEnd with peer := some (.ptr 0) }, none),
          demoStore.emit (.connPeer (some (.ptr 0)) none)) ∧
    runTimers brokenEnv retryOps { retryEnd with peer := some (.ptr 0) }
      (demoStore.emit (.connPeer (some (.ptr 0)) none)) 0 = some (retryEnd, retryEndWorld, 0) ∧
    (Live retryEnd → 0 = 0) ∧ (DownRetrying retryEnd → 0 = 1) ∧ (Idle retryEnd → 0 ≤ 1) ∧
      0 ≤ 1 :=
  ⟨retryFactory_noPeerOnError, rfl, rfl,
    at_most_one_timer brokenEnv "ws://here" retryFactory 10 demoStore
      { retryEnd with peer := some (.ptr 0) } (demoStore.emit (.connPeer (some (.ptr 0)) none)) retryOps
      retryEnd retryEndWorld 0 retryFactory_noPeerOnError rfl rfl⟩

/-! ## Ownership of connections -/

/-- Every operation that completes calls `Close` on exactly the connection it
removes from the slot, if it removes one. -/
theorem step_closes_removed (env : Env) (g : gunPeer) (w : World) (op : Op) (g1 : gunPeer)
    (w1 : World) (h : step env g w op = some (g1, w1)) :
    closeCalls (newEvents w w1) = if g1.peer = none then g.peer.toList else [] := by
  by_cases hop : op = .reconnectPeer
  · subst hop
    simp only [step, Option.some.injEq] at h
    have hg : (reconnectPeer g w).2.1 = g1 := by rw [h]
    have hw : (reconnectPeer g w).2.2 = w1 := by rw [h]
    rcases reconnect_shape g w with ⟨_, hsame, ht⟩ | ⟨hp, _, ⟨_, _, ht⟩ | ⟨e, _, _, ht⟩⟩
    · rw [hw] at ht
      rw [hg] at hsame
      subst hsame
      rw [newEvents_of_trace w w1 _ ht]
      cases hp : g1.peer <;> simp [closeCalls, Event.closedPeer?]
    · rw [hw] at ht
      rw [newEvents_of_trace w w1 _ ht, hp]
      simp [closeCalls, Event.closedPeer?]
    · rw [hw] at ht
      rw [newEvents_of_trace w w1 _ ht, hp]
      simp [closeCalls, Event.closedPeer?]
  · obtain ⟨pre, post, ht, hpre, hch⟩ := step_shape env g w op g1 w1 hop h
    have hsil := (prelude_silent pre hpre).2.1
    rw [newEvents_of_trace w w1 _ ht]
    simp only [closeCalls, List.filterMap_append] at hsil ⊢
    rw [hsil]
    cases hch with
    | same => cases hp : g.peer <;> simp
    | errored c cr hc => simp [hc, Event.closedPeer?]
    | closedConn c cr hc => simp [hc, Event.closedPeer?]
    | closedEmpty hp => simp [hp, Event.closedPeer?]

/-- Every operation keeps the books balanced: the connections obtained from
the factory are those closed so far, in the same order, followed by the one
in the slot. -/
theorem step_owns (env : Env) (base : List Event) (g : gunPeer) (w : World) (op : Op)
    (g1 : gunPeer) (w1 : World)
    (hown : ∃ xs, w.trace = base ++ xs ∧ obtained xs = closeCalls xs ++ g.peer.toList)
    (h : step env g w op = some (g1, w1)) :
    ∃ xs, w1.trace = base ++ xs ∧ obtained xs = closeCalls xs ++ g1.peer.toList := by
  obtain ⟨xs, hxs, hbal⟩ := hown
  by_cases hop : op = .reconnectPeer
  · subst hop
    simp only [step, Option.some.injEq] at h
    have hg : (reconnectPeer g w).2.1 = g1 := by rw [h]
    have hw : (reconnectPeer g w).2.2 = w1 := by rw [h]
    rcases reconnect_shape g w with ⟨_, hsame, ht⟩ | ⟨hp, _, ⟨_, hnew, ht⟩ | ⟨e, _, hnew, ht⟩⟩
    · rw [hw] at ht
      rw [hg] at hsame
      subst hsame
      refine ⟨xs ++ [.lock, .unlock], by rw [ht, hxs, List.append_assoc], ?_⟩
      simp only [obtained, closeCalls, List.filterMap_append] at hbal ⊢
      rw [hbal]
      simp [Event.conn?, Event.closedPeer?]
    · rw [hw] at ht
      rw [hg] at hnew
      subst hnew
      refine ⟨xs ++ [.lock, .connPeer (g.connPeer (w.emit .lock)).1 none, .unlock],
        by rw [ht, hxs, List.append_assoc], ?_⟩
      rw [hp] at hbal
      simp only [obtained, closeCalls, List.filterMap_append] at hbal ⊢
      rw [hbal]
      cases (g.connPeer (w.emit .lock)).1 <;> simp [Event.conn?, Event.closedPeer?]
    · rw [hw] at ht
      rw [hg] at hnew
      subst hnew
      refine ⟨xs ++ [.lock, .connPeer (g.connPeer (w.emit .lock)).1 (some e),
        .afterFunc g.sleepOnErr, .unlock], by rw [ht, hxs, List.append_assoc], ?_⟩
      rw [hp] at hbal
      simp only [obtained, closeCalls, List.filterMap_append] at hbal ⊢
      rw [hbal]
      cases (g.connPeer (w.emit .lock)).1 <;> simp [Event.conn?, Event.closedPeer?]
  · obtain ⟨pre, post, ht, hpre, hch⟩ := step_shape env g w op g1 w1 hop h
    obtain ⟨_, hcl, hob⟩ := prelude_silent pre hpre
    refine ⟨xs ++ (pre ++ post), by rw [ht, hxs, List.append_assoc], ?_⟩
    simp only [obtained, closeCalls, List.filterMap_append] at hbal hcl hob ⊢
    rw [hbal, hcl, hob]
    cases hch with
    | same => simp
    | errored c cr hc => simp [hc, Event.conn?, Event.closedPeer?]
    | closedConn c cr hc => simp [hc, Event.conn?, Event.closedPeer?]
    | closedEmpty hp => simp [hp, Event.conn?, Event.closedPeer?]

/-- C17: in every execution from a successful construction the connections
obtained from the factory are those closed so far, in the same order, followed
by the one in the slot, and every operation calls `Close` on exactly the
connection it removes from the slot.  Hence, when the connections obtained are
pairwise distinct, no connection has been closed twice, the connection in the
slot has never been closed, and every connection obtained and not yet closed
is the one in the slot, so at most one is unclosed. -/
theorem exclusive_ownership (env : Env) (url : String) (f : Factory) (d : Duration)
    (w0 : World) (g0 : gunPeer) (w1 : World) (ops : List Op) (g : gunPeer) (w : World)
    (hnew : newGunPeer url f d w0 = ((some g0, none), w1))
    (hrun : run env ops g0 w1 = some (g, w)) :
    obtained (newEvents w0 w) = closeCalls (newEvents w0 w) ++ g.peer.toList ∧
    (∀ op g2 w2, step env g w op = some (g2, w2) →
      closeCalls (newEvents w w2) = if g2.peer = none then g.peer.toList else []) ∧
    (∀ c ∈ obtained (newEvents w0 w), c ∉ closeCalls (newEvents w0 w) → g.peer = some c) ∧
    ((obtained (newEvents w0 w)).Nodup →
      (closeCalls (newEvents w0 w)).Nodup ∧
      (∀ c ∈ closeCalls (newEvents w0 w), (closeCalls (newEvents w0 w)).count c = 1) ∧
      (∀ c, g.peer = some c → c ∉ closeCalls (newEvents w0 w)) ∧
      ((obtained (newEvents w0 w)).filter
        (fun c => decide (c ∉ closeCalls (newEvents w0 w)))).length ≤ 1) := by
  obtain ⟨hg0, hw1⟩ := newGunPeer_some url f d w0 g0 w1 hnew
  have hstart : ∃ xs, w1.trace = w0.trace ++ xs ∧ obtained xs = closeCalls xs ++ g0.peer.toList := by
    refine ⟨_, hw1, ?_⟩
    subst hg0
    cases (f w0).1 <;> simp [obtained, closeCalls, Event.conn?, Event.closedPeer?]
  obtain ⟨xs, hxs, hbal⟩ := run_invariant env
    (fun g w => ∃ xs, w.trace = w0.trace ++ xs ∧ obtained xs = closeCalls xs ++ g.peer.toList)
    (fun g w op g1 w1 hP hs => step_owns env w0.trace g w op g1 w1 hP hs) ops g0 w1 g w hstart hrun
  rw [newEvents_of_trace w0 w xs hxs]
  refine ⟨hbal, fun op g2 w2 hs => step_closes_removed env g w op g2 w2 hs, ?_, ?_⟩
  · intro c hc hnot
    rw [hbal] at hc
    rcases List.mem_append.1 hc with h1 | h1
    · exact absurd h1 hnot
    · cases hp : g.peer with
      | none => rw [hp] at h1; simp at h1
      | some c2 =>
        rw [hp] at h1
        simp only [Option.toList_some, List.mem_singleton] at h1
        rw [h1]
  · intro hnd
    rw [hbal] at hnd
    have hcl : (closeCalls xs).Nodup := (List.nodup_append.1 hnd).1
    have hdis : ∀ c, g.peer = some c → c ∉ closeCalls xs := by
      intro c hp hmem
      have := (List.nodup_append.1 hnd).2.2
      exact this hmem (by rw [hp]; simp)
    refine ⟨hcl, fun c hc => List.count_eq_one_of_mem hcl hc, hdis, ?_⟩
    rw [hbal, List.filter_append]
    have hnil : (closeCalls xs).filter (fun c => decide (c ∉ closeCalls xs)) = [] := by
      rw [List.filter_eq_nil_iff]
      intro c hc
      simp [hc]
    rw [hnil, List.nil_append]
    refine le_trans (List.length_filter_le _ _) ?_
    cases g.peer <;> simp

/-- The theorem of C17 at the sample run, where the factory hands back the
connections 0 and 2. -/
theorem exclusive_ownership_witness :
    newGunPeer "ws://here" retryFactory 10 demoStore
      = ((some { retryEnd with peer := some (.ptr 0) }, none),
          demoStore.emit (.connPeer (some (.ptr 0)) none)) ∧
    run brokenEnv retryOps { retryEnd with peer := some (.ptr 0) }
      (demoStore.emit (.connPeer (some (.ptr 0)) none)) = some (retryEnd, retryEndWorld) ∧
    (obtained (newEvents demoStore retryEndWorld)).Nodup ∧
    obtained (newEvents demoStore retryEndWorld)
      = closeCalls (newEvents demoStore retryEndWorld) ++ retryEnd.peer.toList ∧
    (closeCalls (newEvents demoStore retryEndWorld)).Nodup ∧
    (∀ c, retryEnd.peer = some c → c ∉ closeCalls (newEvents demoStore retryEndWorld)) ∧
    ((obtained (newEvents demoStore retryEndWorld)).filter
      (fun c => decide (c ∉ closeCalls (newEvents demoStore retryEndWorld)))).length ≤ 1 :=
  ⟨rfl, rfl, by decide,
    (exclusive_ownership brokenEnv "ws://here" retryFactory 10 demoStore
      { retryEnd with peer := some (.ptr 0) } (demoStore.emit (.connPeer (some (.ptr 0)) none)) retryOps
      retryEnd retryEndWorld rfl rfl).1,
    ((exclusive_ownership brokenEnv "ws://here" retryFactory 10 demoStore
      { retryEnd with peer := some (.ptr 0) } (demoStore.emit (.connPeer (some (.ptr 0)) none)) retryOps
      retryEnd retryEndWorld rfl rfl).2.2.2 (by decide)).1,
    ((exclusive_ownership brokenEnv "ws://here" retryFactory 10 demoStore
      { retryEnd with peer := some (.ptr 0) } (demoStore.emit (.connPeer (some (.ptr 0)) none)) retryOps
      retryEnd retryEndWorld rfl rfl).2.2.2 (by decide)).2.2.1,
    ((exclusive_ownership brokenEnv "ws://here" retryFactory 10 demoStore
      { retryEnd with peer := some (.ptr 0) } (demoStore.emit (.connPeer (some (.ptr 0)) none)) retryOps
      retryEnd retryEndWorld rfl rfl).2.2.2 (by decide)).2.2.2⟩

end gun
